import Mathlib

/-!
Verification model of the nupi ElevenLabs TTS adapter.

This file gives a shallow embedding, in Lean 4, of the three core components
of the adapter:

* the disk-backed LRU byte cache (`internal/cache/cache.go`):
  key index, `Get`, `Put`, LRU eviction, reload of pre-existing files;
* the cache-key derivation (`cache.Key`): the newline-delimited
  `name=value` serialization of the synthesis parameters followed by a
  SHA-256 digest, hex encoded;
* the streaming coordinator (`internal/server/server.go`):
  `StreamSynthesis` and `streamFromBytes`, modelled as functions from the
  request, the configured state, and the behaviour of the external
  collaborators (cache lookup result, upstream synthesizer byte stream,
  context cancellation, wall clock) to the ordered trace of events the
  request produces (messages sent to the sink, plus the synthesizer
  invocation).

Modelling conventions:

* Go byte slices are `List Nat` (each element a byte value); Go strings are
  Lean `String`s; `time.Time` values are logical `Nat` timestamps (only
  their ordering is used by the code); the filesystem is an association
  list from path to contents.
* `os.WriteFile` may fail; the failure is an input of the model
  (a `writeOk : Bool` flag).  `os.Remove` errors are ignored by the code,
  so removal is modelled as unconditional.
* Go `float64` voice-setting parameters are modelled by their exact
  rational values (`ℚ`); the `fmt` `%f` rendering used by the key
  serialization (six fractional digits, round half to even, as performed by
  Go's strconv on the exact value) is implemented on `ℚ`.
* Context cancellation is an input `cancelAt : Option Nat`: the context is
  observed as done from the `cancelAt`-th cooperative check of the
  relevant loop onwards.
-/

/-! ## Association-list helpers (Go maps and the filesystem) -/

/-- First-match lookup in an association list (Go map read). -/
def lookupA {α : Type} : List (String × α) → String → Option α
  | [], _ => none
  | (k', v) :: rest, k => if k' = k then some v else lookupA rest k

/-- Remove the first binding of a key (Go map delete / file removal). -/
def eraseA {α : Type} : List (String × α) → String → List (String × α)
  | [], _ => []
  | (k', v) :: rest, k => if k' = k then rest else (k', v) :: eraseA rest k

/-- Replace the value of the first binding of a key, leaving other bindings
untouched (in-place mutation of a map entry). -/
def setA {α : Type} : List (String × α) → String → α → List (String × α)
  | [], _, _ => []
  | (k', v) :: rest, k, w => if k' = k then (k', w) :: rest else (k', v) :: setA rest k w

theorem eraseA_sublist {α : Type} (l : List (String × α)) (k : String) :
    (eraseA l k).Sublist l := by
  induction l with
  | nil => simp [eraseA]
  | cons p rest ih =>
    simp only [eraseA]
    by_cases h : p.1 = k
    · cases p; simp_all [List.sublist_cons_self]
    · cases p; simp_all

theorem lookupA_isSome_of_mem {α : Type} (l : List (String × α)) (k : String)
    (h : k ∈ l.map Prod.fst) : (lookupA l k).isSome := by
  induction l with
  | nil => simp at h
  | cons p rest ih =>
    simp only [lookupA]
    by_cases hk : p.1 = k
    · simp [hk]
    · simp only [List.map_cons, List.mem_cons] at h
      rcases h with h | h
      · exact absurd h.symm hk
      · simp [hk, ih h]

theorem eraseA_length_lt {α : Type} (l : List (String × α)) (k : String)
    (h : (lookupA l k).isSome) : (eraseA l k).length < l.length := by
  induction l with
  | nil => simp [lookupA] at h
  | cons p rest ih =>
    simp only [lookupA] at h
    simp only [eraseA]
    by_cases hk : p.1 = k
    · simp [hk]
    · simp only [hk, if_false] at h ⊢
      simpa using ih h

/-! ## The disk cache (`internal/cache/cache.go`) -/

namespace Cache

/-- One index entry: `size`, `accessedAt`, `path` (struct `entry`). -/
structure Entry where
  size : Nat
  accessedAt : Nat
  path : String
deriving DecidableEq, Repr

/-- The cache state: backing directory, byte capacity, and the key index
(struct `Cache`; the mutex serializes access and is not part of the
sequential state). -/
structure State where
  dir : String
  maxBytes : Nat
  entries : List (String × Entry)
deriving DecidableEq, Repr

/-- The backing directory contents: path to file bytes. -/
abbrev Disk := List (String × List Nat)

/-- Sum of the sizes of all indexed entries (method `totalSize`). -/
def totalSize (es : List (String × Entry)) : Nat :=
  (es.map (fun p => p.2.size)).sum

/-- Interior of the `oldestKey` scan: `k`/`t` hold the current oldest key and
its access time; `Before` is a strict comparison, so on ties the earlier
iterate wins. -/
def oldestGo : List (String × Entry) → String → Nat → String
  | [], k, _ => k
  | (k', e) :: rest, k, t =>
    if e.accessedAt < t then oldestGo rest k' e.accessedAt else oldestGo rest k t

/-- Key with the earliest `accessedAt`, or `""` for an empty index
(method `oldestKey`). -/
def oldestKey : List (String × Entry) → String
  | [] => ""
  | (k, e) :: rest => oldestGo rest k e.accessedAt

/-- LRU eviction (method `evict`): while `totalSize + needed > maxBytes`,
remove the oldest entry (delete its file, drop the index entry); stop if
`oldestKey` returns `""`. -/
def evict (mx needed : Nat) (es : List (String × Entry)) (d : Disk) :
    List (String × Entry) × Disk :=
  if totalSize es + needed ≤ mx then (es, d)
  else
    let k := oldestKey es
    if k = "" then (es, d)
    else
      match h : lookupA es k with
      | none => (es, d)
      | some e => evict mx needed (eraseA es k) (eraseA d e.path)
termination_by es.length
decreasing_by
  exact eraseA_length_lt es k (by simp [h])

/-- Method `Get`: index lookup, then file read; a missing or unreadable file
removes the stale entry (self-healing); a successful read refreshes
`accessedAt`. -/
def Get (c : State) (d : Disk) (now : Nat) (key : String) :
    State × Option (List Nat) :=
  match lookupA c.entries key with
  | none => (c, none)
  | some e =>
    match lookupA d e.path with
    | none => ({ c with entries := eraseA c.entries key }, none)
    | some data =>
        ({ c with entries := setA c.entries key ⟨e.size, now, e.path⟩ }, some data)

/-- Pre-write stage of `Put` (the lines before `os.WriteFile`): if an entry
already exists for the key, its backing file is removed and the entry
dropped from the index; then LRU eviction makes room for `needed` bytes. -/
def putPrepare (c : State) (d : Disk) (key : String) (needed : Nat) :
    List (String × Entry) × Disk :=
  let s1 : List (String × Entry) × Disk :=
    match lookupA c.entries key with
    | some old => (eraseA c.entries key, eraseA d old.path)
    | none => (c.entries, d)
  evict c.maxBytes needed s1.1 s1.2

/-- Method `Put`: oversized data is silently skipped; otherwise the old entry
for the key (if any) is deleted first, LRU eviction makes room, and the
data is written to `dir/key.pcm`; the index entry is inserted only if the
write succeeds.  Returns the updated state, the updated disk and the error
(if any). -/
def Put (c : State) (d : Disk) (now : Nat) (key : String) (data : List Nat)
    (writeOk : Bool) : State × Disk × Option String :=
  if data.length > c.maxBytes then (c, d, none)
  else
    let s2 := putPrepare c d key data.length
    let p := c.dir ++ "/" ++ key ++ ".pcm"
    if writeOk then
      ({ c with entries := (key, ⟨data.length, now, p⟩) :: s2.1 },
        ((p, data) :: eraseA s2.2 p, none))
    else
      ({ c with entries := s2.1 }, (s2.2, some "cache: write"))

/-- Method `loadExisting` as called from `New`: each discovered `.pcm` file
(key, size, modification time) is inserted into the index; if any entries
were loaded, evict down to capacity. -/
def loadExisting (c : State) (d : Disk) (files : List (String × Nat × Nat)) :
    State × Disk :=
  let es := files.foldl
    (fun acc f => (f.1, Entry.mk f.2.1 f.2.2 (c.dir ++ "/" ++ f.1 ++ ".pcm")) :: eraseA acc f.1)
    c.entries
  if es = [] then ({ c with entries := es }, d)
  else
    let r := evict c.maxBytes 0 es d
    ({ c with entries := r.1 }, r.2)

/-- Function `New`: fresh state over `dir` with capacity `mx`, then reload of
the pre-existing files found by the glob. -/
def New (dir : String) (mx : Nat) (files : List (String × Nat × Nat)) (d : Disk) :
    State × Disk :=
  loadExisting ⟨dir, mx, []⟩ d files

/-- One client-visible cache operation. -/
inductive Op
  | put (now : Nat) (key : String) (data : List Nat) (writeOk : Bool)
  | get (now : Nat) (key : String)

/-- Apply one operation to the cache-and-disk pair. -/
def runOp (s : State × Disk) (op : Op) : State × Disk :=
  match op with
  | .put now k data w =>
      let r := Put s.1 s.2 now k data w
      (r.1, r.2.1)
  | .get now k => ((Get s.1 s.2 now k).1, s.2)

/-- Apply a sequence of operations. -/
def runOps (s : State × Disk) (ops : List Op) : State × Disk :=
  ops.foldl runOp s

end Cache

namespace Cache

/-! ### Lemmas about the cache -/

/-- All indexed keys are nonempty.  Keys produced by the key deriver are
64-character hex digests, and this property is what separates the
`oldestKey = ""` sentinel from a genuinely empty index. -/
def noEmptyKey (es : List (String × Entry)) : Prop :=
  ∀ p ∈ es, p.1 ≠ ""

theorem oldestGo_mem (es : List (String × Entry)) (k : String) (t : Nat) :
    oldestGo es k t = k ∨ oldestGo es k t ∈ es.map Prod.fst := by
  induction es generalizing k t with
  | nil => simp [oldestGo]
  | cons p rest ih =>
    simp only [oldestGo]
    by_cases h : p.2.accessedAt < t
    · simp only [h, if_true]
      rcases ih p.1 p.2.accessedAt with h' | h'
      · right; simp [h']
      · right; simp [h']
    · simp only [h, if_false]
      rcases ih k t with h' | h'
      · left; exact h'
      · right; simp [h']

theorem oldestKey_ne_empty (es : List (String × Entry)) (hne : es ≠ [])
    (hk : noEmptyKey es) : oldestKey es ≠ "" := by
  cases es with
  | nil => exact absurd rfl hne
  | cons p rest =>
    simp only [oldestKey]
    rcases oldestGo_mem rest p.1 p.2.accessedAt with h | h
    · rw [h]; exact hk p (by simp)
    · simp only [List.mem_map] at h
      obtain ⟨q, hq, hq'⟩ := h
      rw [← hq']
      exact hk q (by simp [hq])

theorem oldestKey_mem (es : List (String × Entry)) (hne : es ≠ []) :
    oldestKey es ∈ es.map Prod.fst := by
  cases es with
  | nil => exact absurd rfl hne
  | cons p rest =>
    simp only [oldestKey]
    rcases oldestGo_mem rest p.1 p.2.accessedAt with h | h
    · simp [h]
    · simp [h]

theorem noEmptyKey_of_sublist {es es' : List (String × Entry)}
    (hs : es'.Sublist es) (h : noEmptyKey es) : noEmptyKey es' :=
  fun p hp => h p (hs.mem hp)

/-- The eviction loop only removes entries: its result is a sublist of the
input index. -/
theorem evict_sublist (mx needed : Nat) (es : List (String × Entry)) (d : Disk) :
    (evict mx needed es d).1.Sublist es := by
  rw [evict]
  by_cases h1 : totalSize es + needed ≤ mx
  · simp [h1]
  · simp only [h1, if_false]
    by_cases h2 : oldestKey es = ""
    · simp [h2]
    · simp only [h2, if_false]
      cases h3 : lookupA es (oldestKey es) with
      | none => simp
      | some e =>
        simp only []
        exact (evict_sublist mx needed (eraseA es (oldestKey es)) (eraseA d e.path)).trans
          (eraseA_sublist es (oldestKey es))
termination_by es.length
decreasing_by
  exact eraseA_length_lt es (oldestKey es) (by simp [h3])

/-- After eviction for an index with nonempty keys, either the capacity check
is satisfied or the index has been emptied out. -/
theorem evict_le (mx needed : Nat) (es : List (String × Entry)) (d : Disk)
    (hk : noEmptyKey es) :
    totalSize (evict mx needed es d).1 + needed ≤ mx ∨ (evict mx needed es d).1 = [] := by
  rw [evict]
  by_cases h1 : totalSize es + needed ≤ mx
  · simp [h1]
  · simp only [h1, if_false]
    by_cases h2 : oldestKey es = ""
    · have he : es = [] := by
        by_contra hne
        exact (oldestKey_ne_empty es hne hk) h2
      subst he
      simp [oldestKey]
    · simp only [h2, if_false]
      cases h3 : lookupA es (oldestKey es) with
      | none =>
        have hmem : oldestKey es ∈ es.map Prod.fst := by
          apply oldestKey_mem
          intro he; subst he; simp [oldestKey] at h2
        have := lookupA_isSome_of_mem es (oldestKey es) hmem
        rw [h3] at this; simp at this
      | some e =>
        simp only []
        exact evict_le mx needed (eraseA es (oldestKey es)) (eraseA d e.path)
          (noEmptyKey_of_sublist (eraseA_sublist es (oldestKey es)) hk)
termination_by es.length
decreasing_by
  exact eraseA_length_lt es (oldestKey es) (by simp [h3])

theorem totalSize_le_of_sublist {es es' : List (String × Entry)}
    (hs : es'.Sublist es) : totalSize es' ≤ totalSize es := by
  unfold totalSize
  exact List.Sublist.sum_le_sum (hs.map (fun p => p.2.size)) (by intro a _; exact Nat.zero_le a)

/-- Capacity bound for eviction: with nonempty keys the evicted index always
fits within `mx` together with the requested headroom, unless it is empty
(in which case its size is zero). -/
theorem evict_totalSize_le (mx needed : Nat) (es : List (String × Entry)) (d : Disk)
    (hk : noEmptyKey es) : totalSize (evict mx needed es d).1 ≤ mx := by
  rcases evict_le mx needed es d hk with h | h
  · omega
  · simp [h, totalSize]

end Cache

namespace Cache

theorem noEmptyKey_setA (es : List (String × Entry)) (k : String) (w : Entry)
    (h : noEmptyKey es) : noEmptyKey (setA es k w) := by
  induction es with
  | nil => simpa [setA] using h
  | cons p rest ih =>
    simp only [setA]
    by_cases hk : p.1 = k
    · simp only [hk, if_true]
      intro q hq
      rcases List.mem_cons.mp hq with h' | h'
      · subst h'; simpa [← hk] using h p (by simp)
      · exact h q (by simp [h'])
    · simp only [hk, if_false]
      intro q hq
      rcases List.mem_cons.mp hq with h' | h'
      · subst h'; exact h p (by simp)
      · exact ih (fun r hr => h r (by simp [hr])) q h'

theorem totalSize_setA (es : List (String × Entry)) (k : String) (e : Entry) (t : Nat)
    (hl : lookupA es k = some e) :
    totalSize (setA es k ⟨e.size, t, e.path⟩) = totalSize es := by
  induction es with
  | nil => simp [lookupA] at hl
  | cons p rest ih =>
    simp only [lookupA] at hl
    simp only [setA]
    by_cases hk : p.1 = k
    · simp only [hk, if_true] at hl ⊢
      cases hl
      simp [totalSize]
    · simp only [hk, if_false] at hl ⊢
      simp [totalSize] at ih ⊢
      exact ih hl

theorem putPrepare_sublist (c : State) (d : Disk) (k : String) (n : Nat) :
    (putPrepare c d k n).1.Sublist c.entries := by
  unfold putPrepare
  cases hL : lookupA c.entries k with
  | none =>
    simp only [hL]
    exact evict_sublist _ _ _ _
  | some old =>
    simp only [hL]
    exact (evict_sublist _ _ _ _).trans (eraseA_sublist _ _)

theorem putPrepare_noEmptyKey (c : State) (d : Disk) (k : String) (n : Nat)
    (hk : noEmptyKey c.entries) : noEmptyKey (putPrepare c d k n).1 :=
  noEmptyKey_of_sublist (putPrepare_sublist c d k n) hk

theorem putPrepare_le (c : State) (d : Disk) (k : String) (n : Nat)
    (hk : noEmptyKey c.entries) :
    totalSize (putPrepare c d k n).1 + n ≤ c.maxBytes ∨ (putPrepare c d k n).1 = [] := by
  unfold putPrepare
  cases hL : lookupA c.entries k with
  | none =>
    simp only [hL]
    exact evict_le _ _ _ _ hk
  | some old =>
    simp only [hL]
    exact evict_le _ _ _ _ (noEmptyKey_of_sublist (eraseA_sublist _ _) hk)

/-- Shape of a `Put` whose data exceeds the capacity: untouched state, no
error. -/
theorem Put_oversized (c : State) (d : Disk) (now : Nat) (k : String)
    (data : List Nat) (w : Bool) (h : data.length > c.maxBytes) :
    Put c d now k data w = (c, d, none) := by
  simp [Put, h]

/-- Shape of a `Put` whose backing-file write fails: the error is returned and
the index is exactly the prepared (old-entry-removed, evicted) index. -/
theorem Put_failure (c : State) (d : Disk) (now : Nat) (k : String)
    (data : List Nat) (h : ¬ data.length > c.maxBytes) :
    (Put c d now k data false).1.entries = (putPrepare c d k data.length).1 ∧
      (Put c d now k data false).2.2 = some "cache: write" := by
  constructor <;> simp [Put, h]

theorem Get_inv (c : State) (d : Disk) (now : Nat) (k : String)
    (hk : noEmptyKey c.entries) (hinv : totalSize c.entries ≤ c.maxBytes) :
    noEmptyKey (Get c d now k).1.entries ∧
      totalSize (Get c d now k).1.entries ≤ c.maxBytes ∧
      (Get c d now k).1.maxBytes = c.maxBytes := by
  cases h1 : lookupA c.entries k with
  | none =>
    refine ⟨?_, ?_, ?_⟩ <;> simp only [Get, h1]
    · exact hk
    · exact hinv
  | some e =>
    cases h2 : lookupA d e.path with
    | none =>
      refine ⟨?_, ?_, ?_⟩
      · simpa [Get, h1, h2] using noEmptyKey_of_sublist (eraseA_sublist c.entries k) hk
      · simpa [Get, h1, h2] using
          le_trans (totalSize_le_of_sublist (eraseA_sublist c.entries k)) hinv
      · simp [Get, h1, h2]
    | some data =>
      refine ⟨?_, ?_, ?_⟩
      · simpa [Get, h1, h2] using noEmptyKey_setA c.entries k ⟨e.size, now, e.path⟩ hk
      · simp only [Get, h1, h2]
        rw [totalSize_setA c.entries k e now h1]
        exact hinv
      · simp [Get, h1, h2]

theorem Put_inv (c : State) (d : Disk) (now : Nat) (k : String) (data : List Nat)
    (w : Bool) (hk : noEmptyKey c.entries) (hkey : k ≠ "")
    (hinv : totalSize c.entries ≤ c.maxBytes) :
    noEmptyKey (Put c d now k data w).1.entries ∧
      totalSize (Put c d now k data w).1.entries ≤ c.maxBytes ∧
      (Put c d now k data w).1.maxBytes = c.maxBytes := by
  by_cases hbig : data.length > c.maxBytes
  · rw [Put_oversized c d now k data w hbig]
    exact ⟨hk, hinv, rfl⟩
  · have hprep := putPrepare_le c d k data.length hk
    have hprepk := putPrepare_noEmptyKey c d k data.length hk
    cases w with
    | false =>
      refine ⟨?_, ?_, ?_⟩
      · simpa [Put, hbig] using hprepk
      · simp only [Put, hbig, if_false, Bool.false_eq_true]
        rcases hprep with h | h
        · omega
        · rw [h]; simp [totalSize]
      · simp [Put, hbig]
    | true =>
      refine ⟨?_, ?_, ?_⟩
      · simp only [Put, hbig, if_false, if_true]
        intro q hq
        rcases List.mem_cons.mp hq with h' | h'
        · subst h'; exact hkey
        · exact hprepk q h'
      · simp only [Put, hbig, if_false, if_true, totalSize, List.map_cons, List.sum_cons]
        rcases hprep with h | h
        · simp only [totalSize] at h; omega
        · rw [h]
          simp only [List.map_nil, List.sum_nil]
          omega
      · simp [Put, hbig]

theorem loadFold_noEmptyKey (dir : String) (files : List (String × Nat × Nat))
    (acc : List (String × Entry)) (hf : ∀ f ∈ files, f.1 ≠ "") (hacc : noEmptyKey acc) :
    noEmptyKey (files.foldl
      (fun acc f => (f.1, Entry.mk f.2.1 f.2.2 (dir ++ "/" ++ f.1 ++ ".pcm")) :: eraseA acc f.1)
      acc) := by
  induction files generalizing acc with
  | nil => simpa using hacc
  | cons f rest ih =>
    simp only [List.foldl_cons]
    apply ih
    · intro g hg; exact hf g (by simp [hg])
    · intro q hq
      rcases List.mem_cons.mp hq with h' | h'
      · subst h'; exact hf f (by simp)
      · exact noEmptyKey_of_sublist (eraseA_sublist _ _) hacc q h'

theorem New_inv (dir : String) (mx : Nat) (files : List (String × Nat × Nat)) (d : Disk)
    (hf : ∀ f ∈ files, f.1 ≠ "") :
    noEmptyKey (New dir mx files d).1.entries ∧
      totalSize (New dir mx files d).1.entries ≤ mx ∧
      (New dir mx files d).1.maxBytes = mx := by
  have hkeys := loadFold_noEmptyKey dir files [] hf (by intro p hp; simp at hp)
  by_cases hnil : (files.foldl
      (fun acc f => (f.1, Entry.mk f.2.1 f.2.2 (dir ++ "/" ++ f.1 ++ ".pcm")) :: eraseA acc f.1)
      ([] : List (String × Entry))) = []
  · refine ⟨?_, ?_, ?_⟩
    · simp only [New, loadExisting, hnil, if_true]
      intro p hp
      simp at hp
    · simp only [New, loadExisting, hnil, if_true, totalSize, List.map_nil, List.sum_nil]
      exact Nat.zero_le mx
    · simp [New, loadExisting, hnil]
  · refine ⟨?_, ?_, ?_⟩
    · simpa [New, loadExisting, hnil] using
        noEmptyKey_of_sublist (evict_sublist mx 0 _ d) hkeys
    · simpa [New, loadExisting, hnil] using evict_totalSize_le mx 0 _ d hkeys
    · simp [New, loadExisting, hnil]

theorem runOp_inv (s : State × Disk) (op : Op)
    (hop : ∀ now k data w, op = Op.put now k data w → k ≠ "")
    (h1 : noEmptyKey s.1.entries) (h2 : totalSize s.1.entries ≤ s.1.maxBytes) :
    noEmptyKey (runOp s op).1.entries ∧
      totalSize (runOp s op).1.entries ≤ (runOp s op).1.maxBytes ∧
      (runOp s op).1.maxBytes = s.1.maxBytes := by
  cases op with
  | put now k data w =>
    have hkey : k ≠ "" := hop now k data w rfl
    have h := Put_inv s.1 s.2 now k data w h1 hkey h2
    simp only [runOp]
    exact ⟨h.1, by rw [h.2.2]; exact h.2.1, h.2.2⟩
  | get now k =>
    have h := Get_inv s.1 s.2 now k h1 h2
    simp only [runOp]
    exact ⟨h.1, by rw [h.2.2]; exact h.2.1, h.2.2⟩

theorem runOps_inv (s : State × Disk) (ops : List Op)
    (hops : ∀ now k data w, Op.put now k data w ∈ ops → k ≠ "")
    (h1 : noEmptyKey s.1.entries) (h2 : totalSize s.1.entries ≤ s.1.maxBytes) :
    noEmptyKey (runOps s ops).1.entries ∧
      totalSize (runOps s ops).1.entries ≤ (runOps s ops).1.maxBytes ∧
      (runOps s ops).1.maxBytes = s.1.maxBytes := by
  induction ops generalizing s with
  | nil => exact ⟨h1, h2, rfl⟩
  | cons op rest ih =>
    simp only [runOps, List.foldl_cons]
    have hstep := runOp_inv s op
      (fun now k data w hw => hops now k data w (by simp [hw])) h1 h2
    have hmain := ih (runOp s op) (fun now k data w hw => hops now k data w (by simp [hw]))
      hstep.1 hstep.2.1
    simp only [runOps] at hmain
    exact ⟨hmain.1, hmain.2.1, by rw [hmain.2.2, hstep.2.2]⟩

end Cache

/-! ## Key derivation (`cache.Key`) -/

namespace Cache

/-- Decimal digit character. -/
def digitCh : Nat → Char
  | 0 => '0' | 1 => '1' | 2 => '2' | 3 => '3' | 4 => '4'
  | 5 => '5' | 6 => '6' | 7 => '7' | 8 => '8' | _ => '9'

/-- Fuelled most-significant-first decimal digits of a natural number. -/
def natDecAux : Nat → Nat → List Char
  | 0, _ => []
  | fuel + 1, n => if n = 0 then [] else natDecAux fuel (n / 10) ++ [digitCh (n % 10)]

/-- Decimal rendering of a natural number (Go `%d` on non-negative values). -/
def natDec (n : Nat) : String :=
  if n = 0 then "0" else ⟨natDecAux n n⟩

/-- Decimal rendering of an integer (Go `%d`). -/
def intDec : Int → String
  | .ofNat n => natDec n
  | .negSucc n => "-" ++ natDec (n + 1)

/-- Round `a / b` (with `b > 0`) to the nearest natural number, ties going to
the even candidate (the rounding strconv performs on the exact value). -/
def roundHalfEvenNat (a b : Nat) : Nat :=
  let t := a / b
  let r := a % b
  if 2 * r < b then t
  else if b < 2 * r then t + 1
  else if t % 2 = 0 then t else t + 1

/-- Left-pad a string with zeros to six characters. -/
def padLeft6 (s : String) : String :=
  ⟨List.replicate (6 - s.data.length) '0' ++ s.data⟩

/-- Go `%f` rendering (default precision 6) of the exact rational value of a
`float64`: sign, then the decimal digits of `|q|` correctly rounded to six
fractional places. -/
def formatF6 (q : ℚ) : String :=
  let m := roundHalfEvenNat (q.num.natAbs * 1000000) q.den
  let core := natDec (m / 1000000) ++ "." ++ padLeft6 (natDec (m % 1000000))
  if q < 0 then "-" ++ core else core

/-- Serialized line for the optional `stability` parameter. -/
def stabilityLine : Option ℚ → String
  | some v => "stability=" ++ formatF6 v ++ "\n"
  | none => ""

/-- Serialized line for the optional `similarity_boost` parameter. -/
def similarityLine : Option ℚ → String
  | some v => "similarity_boost=" ++ formatF6 v ++ "\n"
  | none => ""

/-- Serialized line for the optional `optimize_streaming_latency` parameter. -/
def latencyLine : Option Int → String
  | some v => "optimize_streaming_latency=" ++ intDec v ++ "\n"
  | none => ""

/-- The exact byte string `Key` feeds into the SHA-256 digest: the
`fmt.Fprintf` calls of the function, in order. -/
def keyInput (text model voiceID languageCode : String)
    (stability similarityBoost : Option ℚ) (optimizeLatency : Option Int) : String :=
  "text=" ++ text ++ "\nmodel=" ++ model ++ "\nvoice=" ++ voiceID ++
    "\nlang=" ++ languageCode ++ "\n" ++
    stabilityLine stability ++ similarityLine similarityBoost ++
    latencyLine optimizeLatency

/-! SHA-256, executable, over byte lists (`crypto/sha256`). -/

/-- The sixty-four SHA-256 round constants. -/
def sha256K : List Nat :=
  [1116352408, 1899447441, 3049323471, 3921009573,
   961987163, 1508970993, 2453635748, 2870763221,
   3624381080, 310598401, 607225278, 1426881987,
   1925078388, 2162078206, 2614888103, 3248222580,
   3835390401, 4022224774, 264347078, 604807628,
   770255983, 1249150122, 1555081692, 1996064986,
   2554220882, 2821834349, 2952996808, 3210313671,
   3336571891, 3584528711, 113926993, 338241895,
   666307205, 773529912, 1294757372, 1396182291,
   1695183700, 1986661051, 2177026350, 2456956037,
   2730485921, 2820302411, 3259730800, 3345764771,
   3516065817, 3600352804, 4094571909, 275423344,
   430227734, 506948616, 659060556, 883997877,
   958139571, 1322822218, 1537002063, 1747873779,
   1955562222, 2024104815, 2227730452, 2361852424,
   2428436474, 2756734187, 3204031479, 3329325298]

/-- The SHA-256 initial hash state. -/
def sha256InitH : List Nat :=
  [1779033703, 3144134277, 1013904242, 2773480762,
   1359893119, 2600822924, 528734635, 1541459225]

/-- Right rotation of a 32-bit word. -/
def rotr32 (n x : Nat) : Nat :=
  ((x >>> n) ||| (x <<< (32 - n))) % 4294967296

/-- Big-endian byte rendering of `n` over `w` bytes. -/
def toBytesBE (w n : Nat) : List Nat :=
  (List.range w).map (fun i => n >>> ((w - 1 - i) * 8) % 256)

/-- SHA-256 padding: a `0x80` byte, zeros up to 56 mod 64, then the bit length
over eight big-endian bytes. -/
def sha256Pad (msg : List Nat) : List Nat :=
  msg ++ [128] ++ List.replicate ((119 - msg.length % 64) % 64) 0 ++
    toBytesBE 8 (msg.length * 8)

/-- Big-endian 32-bit words of a byte list. -/
def bytesToWords : List Nat → List Nat
  | b0 :: b1 :: b2 :: b3 :: rest =>
      (((b0 * 256 + b1) * 256 + b2) * 256 + b3) :: bytesToWords rest
  | _ => []

/-- Split a byte list into 64-byte blocks. -/
def chunksOf64 : List Nat → List (List Nat)
  | [] => []
  | b :: rest => (b :: rest).take 64 :: chunksOf64 ((b :: rest).drop 64)
termination_by l => l.length
decreasing_by
  simp
  omega

/-- Message-schedule sigma functions. -/
def smallSigma0 (x : Nat) : Nat := (rotr32 7 x) ^^^ (rotr32 18 x) ^^^ (x >>> 3)

/-- Second message-schedule sigma function. -/
def smallSigma1 (x : Nat) : Nat := (rotr32 17 x) ^^^ (rotr32 19 x) ^^^ (x >>> 10)

/-- Compression sigma functions. -/
def bigSigma0 (x : Nat) : Nat := (rotr32 2 x) ^^^ (rotr32 13 x) ^^^ (rotr32 22 x)

/-- Second compression sigma function. -/
def bigSigma1 (x : Nat) : Nat := (rotr32 6 x) ^^^ (rotr32 11 x) ^^^ (rotr32 25 x)

/-- Extend the sixteen block words by `n` schedule words. -/
def extendW : Nat → List Nat → List Nat
  | 0, acc => acc
  | n + 1, acc =>
      extendW n (acc ++
        [(smallSigma1 (acc.getD (acc.length - 2) 0) + acc.getD (acc.length - 7) 0 +
            smallSigma0 (acc.getD (acc.length - 15) 0) + acc.getD (acc.length - 16) 0)
          % 4294967296])

/-- One compression round over the state `[a, b, c, d, e, f, g, h]`. -/
def sha256Round (st : List Nat) (kt wt : Nat) : List Nat :=
  let a := st.getD 0 0
  let b := st.getD 1 0
  let c := st.getD 2 0
  let dd := st.getD 3 0
  let e := st.getD 4 0
  let f := st.getD 5 0
  let g := st.getD 6 0
  let hh := st.getD 7 0
  let ch := (e &&& f) ^^^ ((e ^^^ 4294967295) &&& g)
  let maj := (a &&& b) ^^^ (a &&& c) ^^^ (b &&& c)
  let t1 := (hh + bigSigma1 e + ch + kt + wt) % 4294967296
  let t2 := (bigSigma0 a + maj) % 4294967296
  [(t1 + t2) % 4294967296, a, b, c, (dd + t1) % 4294967296, e, f, g]

/-- Compress one 64-byte block into the hash state. -/
def compressBlock (h : List Nat) (block : List Nat) : List Nat :=
  let w := extendW 48 (bytesToWords block)
  let st := (List.range 64).foldl
    (fun st t => sha256Round st (sha256K.getD t 0) (w.getD t 0)) h
  (List.range 8).map (fun i => (h.getD i 0 + st.getD i 0) % 4294967296)

/-- SHA-256 digest (32 bytes) of a byte list. -/
def sha256 (msg : List Nat) : List Nat :=
  (((chunksOf64 (sha256Pad msg)).foldl compressBlock sha256InitH).map
    (toBytesBE 4)).flatten

/-- Lower-case hexadecimal digit character. -/
def hexDigit (n : Nat) : Char :=
  if n < 10 then digitCh n
  else if n = 10 then 'a' else if n = 11 then 'b' else if n = 12 then 'c'
  else if n = 13 then 'd' else if n = 14 then 'e' else 'f'

/-- Lower-case hexadecimal rendering of a byte list (`fmt` `%x`). -/
def bytesToHex (bs : List Nat) : String :=
  ⟨(bs.map (fun b => [hexDigit (b / 16), hexDigit (b % 16)])).flatten⟩

/-- SHA-256 digest of a string's UTF-8 bytes, hex encoded. -/
def sha256hex (s : String) : String :=
  bytesToHex (sha256 (s.toUTF8.data.toList.map (fun b => b.toNat)))

/-- Function `Key`: deterministic SHA-256 hex key over the serialized
synthesis parameters. -/
def Key (text model voiceID languageCode : String)
    (stability similarityBoost : Option ℚ) (optimizeLatency : Option Int) : String :=
  sha256hex (keyInput text model voiceID languageCode stability similarityBoost
    optimizeLatency)

end Cache

/-! ## The streaming coordinator (`internal/server/server.go`) -/

namespace Server

/-- Statuses of `napv1.SynthesisStatus` used by the server. -/
inductive SynthesisStatus
  | started
  | playing
  | finished
  | interrupted
  | error
deriving DecidableEq, Repr

/-- An audio chunk message payload (`napv1.AudioChunk`; the adapter-info
metadata attached to every chunk is constant and omitted here). -/
structure AudioChunk where
  data : List Nat
  sequence : Nat
  first : Bool
  last : Bool
  durationMs : Nat
deriving DecidableEq, Repr

/-- A message sent to the sink (`napv1.SynthesisResponse`). -/
structure SynthesisResponse where
  status : SynthesisStatus
  chunk : Option AudioChunk := none
  metadata : List (String × String) := []
  errorMessage : Option String := none
deriving DecidableEq, Repr

/-- Optional voice settings of the outbound request
(`elevenlabs.VoiceSettings`). -/
structure VoiceSettings where
  stability : Option ℚ
  similarityBoost : Option ℚ
deriving DecidableEq, Repr

/-- The outbound synthesis request (`elevenlabs.SynthesizeRequest`); an
`Option` field is `none` exactly when the Go field is never assigned. -/
structure SynthesizeRequest where
  text : String
  modelID : String
  languageCode : Option String := none
  voiceSettings : Option VoiceSettings := none
  optimizeStreamingLatency : Option Int := none
deriving DecidableEq, Repr

/-- The server configuration fields read by `StreamSynthesis`
(from `config.Config`). -/
structure Config where
  model : String
  voiceID : String
  language : String
  stability : Option ℚ
  similarityBoost : Option ℚ
  optimizeStreamingLatency : Option Int
deriving DecidableEq, Repr

/-- Result of one `audioStream.Read`: no error, `io.EOF`, or another error. -/
inductive ReadErr
  | ok
  | eof
  | fail (msg : String)
deriving DecidableEq, Repr

/-- One observable action of a request: a message sent to the sink, or the
invocation of the external synthesizer. -/
inductive Event
  | send (r : SynthesisResponse)
  | invoke (voiceID : String) (req : SynthesizeRequest)
deriving DecidableEq, Repr

/-- Whitespace test of `strings.TrimSpace` (ASCII subset). -/
def isSpaceCh (c : Char) : Bool :=
  c = ' ' || c = '\t' || c = '\n' || c = '\r' || c = '\x0b' || c = '\x0c'

/-- Model of `strings.TrimSpace`. -/
def trimSpace (s : String) : String :=
  ⟨((s.data.dropWhile isSpaceCh).reverse.dropWhile isSpaceCh).reverse⟩

/-- Function `resolveLanguage`: mode `"client"` reads the trimmed
`nupi.lang.iso1` metadata hint, falling back to `"auto"`; any other mode is
returned verbatim. -/
def resolveLanguage (configLang : String) (metadata : List (String × String)) :
    String :=
  if configLang ≠ "client" then configLang
  else
    let code := trimSpace ((lookupA metadata "nupi.lang.iso1").getD "")
    if code ≠ "" then code else "auto"

/-- Per-chunk duration: `samples := n / 2; durationMs := samples * 1000 / 16000`
(PCM16 mono at 16 kHz), in truncating integer arithmetic. -/
def chunkDurationMs (n : Nat) : Nat :=
  n / 2 * 1000 / 16000

/-- Whether the context is observed as done at the `i`-th cooperative check. -/
def cancelled (cancelAt : Option Nat) (i : Nat) : Bool :=
  match cancelAt with
  | some k => decide (k ≤ i)
  | none => false

/-- A status-only message (`sendStatus`). -/
def statusMsg (st : SynthesisStatus) (md : List (String × String)) :
    SynthesisResponse :=
  { status := st, metadata := md }

/-- An error message (`sendError`). -/
def errorMsg (m : String) : SynthesisResponse :=
  { status := .error, errorMessage := some m }

/-- A `PLAYING` message carrying one audio chunk. -/
def chunkMsg (c : AudioChunk) : SynthesisResponse :=
  { status := .playing, chunk := some c }

/-- How the live read loop ended. -/
inductive LoopExit
  | interrupted
  | readFail (msg : String)
  | done
deriving DecidableEq, Repr

/-- Outcome of the live read loop: chunk messages sent, final sequence
number, total bytes, accumulated bytes, and the exit cause. -/
structure LoopOut where
  msgs : List SynthesisResponse
  seq : Nat
  totalBytes : Nat
  acc : List Nat
  exit : LoopExit
deriving DecidableEq, Repr

/-- The read loop of `StreamSynthesis`: check cancellation, read, emit a
chunk for a read with `n > 0` bytes (`last` set only when that same read
returned `io.EOF`), accumulate for the cache, stop on `io.EOF` or error.
An exhausted read list behaves as a `(0, io.EOF)` read. -/
def liveLoop (cancelAt : Option Nat) (cacheOn : Bool) :
    List (List Nat × ReadErr) → Nat → Nat → Nat → List Nat → LoopOut
  | [], i, seq, totalBytes, acc =>
    if cancelled cancelAt i then ⟨[], seq, totalBytes, acc, .interrupted⟩
    else ⟨[], seq, totalBytes, acc, .done⟩
  | (bytes, e) :: rest, i, seq, totalBytes, acc =>
    if cancelled cancelAt i then ⟨[], seq, totalBytes, acc, .interrupted⟩
    else if bytes.length > 0 then
      let seq' := seq + 1
      let c : AudioChunk :=
        ⟨bytes, seq', decide (seq' = 1), decide (e = .eof),
          chunkDurationMs bytes.length⟩
      let totalBytes' := totalBytes + bytes.length
      let acc' := if cacheOn then acc ++ bytes else acc
      match e with
      | .ok =>
        let out := liveLoop cancelAt cacheOn rest (i + 1) seq' totalBytes' acc'
        ⟨chunkMsg c :: out.msgs, out.seq, out.totalBytes, out.acc, out.exit⟩
      | .eof => ⟨[chunkMsg c], seq', totalBytes', acc', .done⟩
      | .fail m => ⟨[chunkMsg c], seq', totalBytes', acc', .readFail m⟩
    else
      match e with
      | .ok => liveLoop cancelAt cacheOn rest (i + 1) seq totalBytes acc
      | .eof => ⟨[], seq, totalBytes, acc, .done⟩
      | .fail m => ⟨[], seq, totalBytes, acc, .readFail m⟩

/-- The replay loop of `streamFromBytes` over the remaining data: check
cancellation, slice the next (at most) 4096-byte chunk, `last` exactly when
the slice reaches the end of the data.  Returns the chunk messages, the
final sequence number and whether the loop was interrupted. -/
def replayChunks (cancelAt : Option Nat) :
    List Nat → Nat → Nat → List SynthesisResponse × Nat × Bool
  | rest, i, seq =>
    if hr : rest = [] then ([], seq, false)
    else if cancelled cancelAt i then ([], seq, true)
    else
      let chunkData := rest.take 4096
      let seq' := seq + 1
      let c : AudioChunk :=
        ⟨chunkData, seq', decide (seq' = 1), decide (rest.length ≤ 4096),
          chunkDurationMs chunkData.length⟩
      let out := replayChunks cancelAt (rest.drop 4096) (i + 1) seq'
      (chunkMsg c :: out.1, out.2)
termination_by rest _ _ => rest.length
decreasing_by
  simp
  exact List.length_pos.mpr hr

/-- Method `streamFromBytes`: `PLAYING` (status only), the replayed chunks,
then `INTERRUPTED` on cancellation or `FINISHED` tagged `source=cache`. -/
def streamFromBytes (data : List Nat) (text : String) (cancelAt : Option Nat)
    (cancelReason : String) : List SynthesisResponse :=
  statusMsg .playing [] ::
    (let out := replayChunks cancelAt data 0 0
     out.1 ++
       (if out.2.2 then
          [statusMsg .interrupted [("reason", cancelReason)]]
        else
          [statusMsg .finished
            [("total_bytes", toString data.length),
             ("total_chunks", toString out.2.1),
             ("text_length", toString text.utf8ByteSize),
             ("source", "cache")]]))

/-- The outbound synthesis request built by `StreamSynthesis`: text, model,
`languageCode` only when the resolved language is not `"auto"`, voice
settings only when at least one is configured, the configured latency
optimization. -/
def buildReq (cfg : Config) (text : String)
    (reqMeta : List (String × String)) : SynthesizeRequest :=
  let resolvedLang := resolveLanguage cfg.language reqMeta
  { text := text
    modelID := cfg.model
    languageCode := if resolvedLang ≠ "auto" then some resolvedLang else none
    voiceSettings :=
      if cfg.stability.isSome || cfg.similarityBoost.isSome then
        some ⟨cfg.stability, cfg.similarityBoost⟩
      else none
    optimizeStreamingLatency := cfg.optimizeStreamingLatency }

/-- The terminal message sent after the live read loop: `INTERRUPTED` with
the context error, `ERROR` for a read failure, `FINISHED` with the
completion metadata otherwise. -/
def liveTerminal (out : LoopOut) (cancelReason durationStr text : String) :
    Event :=
  match out.exit with
  | .interrupted => .send (statusMsg .interrupted [("reason", cancelReason)])
  | .readFail m => .send (errorMsg ("stream read error: " ++ m))
  | .done =>
      .send (statusMsg .finished
        [("total_bytes", toString out.totalBytes),
         ("total_chunks", toString out.seq),
         ("duration_sec", durationStr),
         ("text_length", toString text.utf8ByteSize)])

/-- Method `StreamSynthesis`, as the event trace of one request.

Inputs beyond the request (`text`, `reqMeta`) and configuration: whether a
cache is configured (`cacheOn`), the result of `Get` on the derived key
(`cacheGet`), the error of `SynthesizeStream` if it fails (`synthErr`), the
read results of the upstream byte stream (`reads`), the cancellation point
(`cancelAt`) with the context error text (`cancelReason`), and the rendered
`%.2f` wall-clock duration (`durationStr`). -/
def StreamSynthesis (cfg : Config) (text : String)
    (reqMeta : List (String × String)) (cacheOn : Bool)
    (cacheGet : Option (List Nat)) (synthErr : Option String)
    (reads : List (List Nat × ReadErr)) (cancelAt : Option Nat)
    (cancelReason : String) (durationStr : String) : List Event :=
  if text = "" then [.send (errorMsg "text is required")]
  else
    Event.send (statusMsg .started []) ::
      (match cacheOn, cacheGet with
       | true, some data =>
         (streamFromBytes data text cancelAt cancelReason).map Event.send
       | _, _ =>
         Event.invoke cfg.voiceID (buildReq cfg text reqMeta) ::
           (match synthErr with
            | some m => [.send (errorMsg ("synthesis failed: " ++ m))]
            | none =>
              Event.send (statusMsg .playing []) ::
                (let out := liveLoop cancelAt cacheOn reads 0 0 0 []
                 (out.msgs.map Event.send) ++
                   [liveTerminal out cancelReason durationStr text])))

/-! ### Trace observations -/

/-- The messages sent to the sink, in order. -/
def sentResponses (tr : List Event) : List SynthesisResponse :=
  tr.filterMap fun e =>
    match e with
    | .send r => some r
    | _ => none

/-- The statuses of the sent messages, in order. -/
def sentStatuses (tr : List Event) : List SynthesisStatus :=
  (sentResponses tr).map (fun r => r.status)

/-- The synthesizer invocations of the trace, in order. -/
def invokes (tr : List Event) : List (String × SynthesizeRequest) :=
  tr.filterMap fun e =>
    match e with
    | .invoke v r => some (v, r)
    | _ => none

/-- The audio chunks of the trace, in order. -/
def chunks (tr : List Event) : List AudioChunk :=
  (sentResponses tr).filterMap (fun r => r.chunk)

/-- Concatenation of the chunk payloads of the trace. -/
def chunksData (tr : List Event) : List Nat :=
  ((chunks tr).map (fun c => c.data)).flatten

/-- Whether some element satisfying `p` occurs strictly before some element
satisfying `q`. -/
def occursBefore {α : Type} (p q : α → Bool) : List α → Bool
  | [] => false
  | e :: rest => (p e && rest.any q) || occursBefore p q rest

/-- Test for a sink message whose status is `PLAYING`. -/
def isPlayingSend : Event → Bool
  | .send r => decide (r.status = .playing)
  | _ => false

/-- Test for a synthesizer invocation. -/
def isInvoke : Event → Bool
  | .invoke _ _ => true
  | _ => false

end Server

namespace Server

/-! ### Lemmas about traces and the two loops -/

theorem sentResponses_nil : sentResponses [] = [] := rfl

theorem sentResponses_cons_send (r : SynthesisResponse) (tr : List Event) :
    sentResponses (Event.send r :: tr) = r :: sentResponses tr := rfl

theorem sentResponses_map_send (l : List SynthesisResponse) :
    sentResponses (l.map Event.send) = l := by
  induction l with
  | nil => rfl
  | cons r rest ih => simpa [sentResponses_cons_send] using ih

theorem sentResponses_append (l1 l2 : List Event) :
    sentResponses (l1 ++ l2) = sentResponses l1 ++ sentResponses l2 := by
  simp [sentResponses, List.filterMap_append]

/-- Every message produced by the live read loop is a chunk message, its
duration is the per-chunk formula on exactly its payload length, and a set
`last` flag comes from a read that returned data together with `io.EOF`. -/
theorem liveLoop_char (ca : Option Nat) (co : Bool)
    (reads : List (List Nat × ReadErr)) (i seq tb : Nat) (acc : List Nat) :
    ∀ r ∈ (liveLoop ca co reads i seq tb acc).msgs,
      ∃ c : AudioChunk, r = chunkMsg c ∧
        c.durationMs = chunkDurationMs c.data.length ∧
        (c.last = true → ∃ p ∈ reads, p.2 = ReadErr.eof ∧ p.1 ≠ []) := by
  induction reads generalizing i seq tb acc with
  | nil =>
    intro r hr
    by_cases hc : cancelled ca i <;> simp [liveLoop, hc] at hr
  | cons p rest ih =>
    obtain ⟨bytes, e⟩ := p
    intro r hr
    by_cases hc : cancelled ca i
    · simp [liveLoop, hc] at hr
    · simp only [liveLoop, hc, Bool.false_eq_true, if_false] at hr
      by_cases hb : bytes.length > 0
      · simp only [hb, if_true] at hr
        cases e with
        | ok =>
          simp only [List.mem_cons] at hr
          rcases hr with hr | hr
          · refine ⟨_, hr, rfl, ?_⟩
            intro hlast
            simp at hlast
          · obtain ⟨c, hc1, hc2, hc3⟩ := ih (i + 1) (seq + 1) (tb + bytes.length) _ r hr
            refine ⟨c, hc1, hc2, ?_⟩
            intro hlast
            obtain ⟨q, hq, hq2⟩ := hc3 hlast
            exact ⟨q, by simp [hq], hq2⟩
        | eof =>
          simp only [List.mem_singleton] at hr
          refine ⟨_, hr, rfl, ?_⟩
          intro _
          refine ⟨(bytes, ReadErr.eof), by simp, rfl, ?_⟩
          intro hnil
          simp at hnil
          simp [hnil] at hb
        | fail m =>
          simp only [List.mem_singleton] at hr
          refine ⟨_, hr, rfl, ?_⟩
          intro hlast
          simp at hlast
      · simp only [hb, if_false] at hr
        cases e with
        | ok =>
          obtain ⟨c, hc1, hc2, hc3⟩ := ih (i + 1) seq tb acc r hr
          refine ⟨c, hc1, hc2, ?_⟩
          intro hlast
          obtain ⟨q, hq, hq2⟩ := hc3 hlast
          exact ⟨q, by simp [hq], hq2⟩
        | eof => simp at hr
        | fail m => simp at hr

/-- Every message produced by the replay loop is a chunk message with the
per-chunk duration formula. -/
theorem replayChunks_char (ca : Option Nat) :
    ∀ (n : Nat) (rest : List Nat) (i seq : Nat), rest.length ≤ n →
      ∀ r ∈ (replayChunks ca rest i seq).1,
        ∃ c : AudioChunk, r = chunkMsg c ∧
          c.durationMs = chunkDurationMs c.data.length := by
  intro n
  induction n with
  | zero =>
    intro rest i seq hn r hr
    have h0 : rest = [] := List.eq_nil_of_length_eq_zero (Nat.le_zero.mp hn)
    rw [replayChunks] at hr
    simp [h0] at hr
  | succ n ih =>
    intro rest i seq hn r hr
    rw [replayChunks] at hr
    by_cases h0 : rest = []
    · simp [h0] at hr
    · simp only [h0, dite_false] at hr
      by_cases hc : cancelled ca i
      · simp [hc] at hr
      · simp only [hc, Bool.false_eq_true, if_false, List.mem_cons] at hr
        rcases hr with hr | hr
        · exact ⟨_, hr, rfl⟩
        · refine ih (rest.drop 4096) (i + 1) (seq + 1) ?_ r hr
          have h1 : 0 < rest.length := List.length_pos.mpr h0
          simp only [List.length_drop]
          omega

/-- With no cancellation the replay loop is never interrupted and the
concatenation of its chunk payloads is exactly the input data. -/
theorem replayChunks_none :
    ∀ (n : Nat) (rest : List Nat) (i seq : Nat), rest.length ≤ n →
      (replayChunks none rest i seq).2.2 = false ∧
      (((replayChunks none rest i seq).1.filterMap (fun r => r.chunk)).map
        (fun c => c.data)).flatten = rest := by
  intro n
  induction n with
  | zero =>
    intro rest i seq hn
    have h0 : rest = [] := List.eq_nil_of_length_eq_zero (Nat.le_zero.mp hn)
    rw [replayChunks]
    simp [h0]
  | succ n ih =>
    intro rest i seq hn
    rw [replayChunks]
    by_cases h0 : rest = []
    · simp [h0]
    · simp only [h0, dite_false, cancelled, Bool.false_eq_true, if_false]
      have h1 : 0 < rest.length := List.length_pos.mpr h0
      have hrec := ih (rest.drop 4096) (i + 1) (seq + 1)
        (by simp only [List.length_drop]; omega)
      refine ⟨hrec.1, ?_⟩
      simp only [chunkMsg, List.filterMap_cons, List.map_cons, List.flatten_cons]
      rw [hrec.2]
      exact List.take_append_drop 4096 rest

/-- With no cancellation and nonempty data, the final chunk of the replay
loop carries `last = true`. -/
theorem replayChunks_last :
    ∀ (n : Nat) (rest : List Nat) (i seq : Nat), rest.length ≤ n → rest ≠ [] →
      ∃ c : AudioChunk,
        ((replayChunks none rest i seq).1.filterMap (fun r => r.chunk)).getLast?
          = some c ∧ c.last = true := by
  intro n
  induction n with
  | zero =>
    intro rest i seq hn h0
    exact absurd (List.eq_nil_of_length_eq_zero (Nat.le_zero.mp hn)) h0
  | succ n ih =>
    intro rest i seq hn h0
    rw [replayChunks]
    simp only [h0, dite_false, cancelled, Bool.false_eq_true, if_false]
    by_cases hdrop : rest.drop 4096 = []
    · have hlen : rest.length ≤ 4096 := by
        have h2 := List.length_drop 4096 rest
        rw [hdrop] at h2
        simp at h2
        omega
      refine ⟨⟨rest.take 4096, seq + 1, decide (seq + 1 = 1),
          decide (rest.length ≤ 4096), chunkDurationMs (rest.take 4096).length⟩, ?_, ?_⟩
      · rw [replayChunks]
        simp [hdrop, chunkMsg]
      · simpa using hlen
    · have h1 : 0 < rest.length := List.length_pos.mpr h0
      obtain ⟨c, hc1, hc2⟩ := ih (rest.drop 4096) (i + 1) (seq + 1)
        (by simp only [List.length_drop]; omega) hdrop
      refine ⟨c, ?_, hc2⟩
      simp only [chunkMsg, List.filterMap_cons]
      have hne : ((replayChunks none (rest.drop 4096) (i + 1) (seq + 1)).1.filterMap
          (fun r => r.chunk)) ≠ [] := by
        intro hemp
        rw [hemp] at hc1
        simp at hc1
      rw [List.getLast?_cons, hc1]
      cases hl : ((replayChunks none (rest.drop 4096) (i + 1) (seq + 1)).1.filterMap
          (fun r => r.chunk)) with
      | nil => exact absurd hl hne
      | cons x xs => rw [hl] at hc1; simp [hc1]

end Server

namespace Server

/-! ### Path shape of `StreamSynthesis` -/

theorem StreamSynthesis_empty (cfg : Config) (reqMeta : List (String × String))
    (cacheOn : Bool) (cacheGet : Option (List Nat)) (synthErr : Option String)
    (reads : List (List Nat × ReadErr)) (cancelAt : Option Nat)
    (cancelReason durationStr : String) :
    StreamSynthesis cfg "" reqMeta cacheOn cacheGet synthErr reads cancelAt
        cancelReason durationStr
      = [.send (errorMsg "text is required")] := by
  simp [StreamSynthesis]

theorem StreamSynthesis_hit (cfg : Config) (text : String)
    (reqMeta : List (String × String)) (data : List Nat)
    (synthErr : Option String) (reads : List (List Nat × ReadErr))
    (cancelAt : Option Nat) (cancelReason durationStr : String)
    (ht : text ≠ "") :
    StreamSynthesis cfg text reqMeta true (some data) synthErr reads cancelAt
        cancelReason durationStr
      = Event.send (statusMsg .started []) ::
          (streamFromBytes data text cancelAt cancelReason).map Event.send := by
  simp [StreamSynthesis, ht]

theorem StreamSynthesis_missFail (cfg : Config) (text : String)
    (reqMeta : List (String × String)) (cacheOn : Bool)
    (cacheGet : Option (List Nat)) (m : String)
    (reads : List (List Nat × ReadErr)) (cancelAt : Option Nat)
    (cancelReason durationStr : String) (ht : text ≠ "")
    (hmiss : cacheOn = false ∨ cacheGet = none) :
    StreamSynthesis cfg text reqMeta cacheOn cacheGet (some m) reads cancelAt
        cancelReason durationStr
      = [Event.send (statusMsg .started []),
         Event.invoke cfg.voiceID (buildReq cfg text reqMeta),
         Event.send (errorMsg ("synthesis failed: " ++ m))] := by
  rcases hmiss with h | h
  · subst h; simp [StreamSynthesis, ht]
  · subst h; cases cacheOn <;> simp [StreamSynthesis, ht]

theorem StreamSynthesis_missOk (cfg : Config) (text : String)
    (reqMeta : List (String × String)) (cacheOn : Bool)
    (cacheGet : Option (List Nat)) (reads : List (List Nat × ReadErr))
    (cancelAt : Option Nat) (cancelReason durationStr : String)
    (ht : text ≠ "") (hmiss : cacheOn = false ∨ cacheGet = none) :
    StreamSynthesis cfg text reqMeta cacheOn cacheGet none reads cancelAt
        cancelReason durationStr
      = Event.send (statusMsg .started []) ::
          Event.invoke cfg.voiceID (buildReq cfg text reqMeta) ::
          Event.send (statusMsg .playing []) ::
          ((liveLoop cancelAt cacheOn reads 0 0 0 []).msgs.map Event.send ++
            [liveTerminal (liveLoop cancelAt cacheOn reads 0 0 0 [])
              cancelReason durationStr text]) := by
  rcases hmiss with h | h
  · subst h; simp [StreamSynthesis, ht]
  · subst h; cases cacheOn <;> simp [StreamSynthesis, ht]

/-- Statuses of the cache-replay message list: a leading `PLAYING`, chunk
`PLAYING`s, then `FINISHED` or `INTERRUPTED`. -/
theorem streamFromBytes_statuses (data : List Nat) (text : String)
    (ca : Option Nat) (cr : String) :
    ∃ (n : Nat) (t : SynthesisStatus),
      (streamFromBytes data text ca cr).map (fun r => r.status)
          = SynthesisStatus.playing ::
              (List.replicate n SynthesisStatus.playing ++ [t]) ∧
        (t = SynthesisStatus.finished ∨ t = SynthesisStatus.interrupted) := by
  have hall : ∀ r ∈ (replayChunks ca data 0 0).1, r.status = SynthesisStatus.playing := by
    intro r hr
    obtain ⟨c, hc, -⟩ := replayChunks_char ca data.length data 0 0 le_rfl r hr
    subst hc
    rfl
  have hrep : (replayChunks ca data 0 0).1.map (fun r => r.status)
      = List.replicate ((replayChunks ca data 0 0).1.map (fun r => r.status)).length
          SynthesisStatus.playing := by
    apply List.eq_replicate_of_mem
    intro s hs
    obtain ⟨r, hr, hrs⟩ := List.mem_map.mp hs
    rw [← hrs]
    exact hall r hr
  refine ⟨((replayChunks ca data 0 0).1.map (fun r => r.status)).length, ?_, ?_, ?_⟩
  · exact if (replayChunks ca data 0 0).2.2 then .interrupted else .finished
  · simp only [streamFromBytes, List.map_cons, statusMsg, List.map_append]
    rw [hrep]
    by_cases hi : (replayChunks ca data 0 0).2.2 <;> simp [hi, hrep.symm]
  · by_cases hi : (replayChunks ca data 0 0).2.2 <;> simp [hi]

end Server

namespace Server

/-- The terminal of the live loop is always a single sent message whose
status is terminal. -/
theorem liveTerminal_cases (out : LoopOut) (cr ds text : String) :
    ∃ rT : SynthesisResponse, liveTerminal out cr ds text = .send rT ∧
      (rT.status = SynthesisStatus.finished ∨ rT.status = SynthesisStatus.error ∨
        rT.status = SynthesisStatus.interrupted) ∧ rT.chunk = none := by
  cases hx : out.exit with
  | interrupted =>
    exact ⟨statusMsg .interrupted [("reason", cr)], by simp [liveTerminal, hx],
      Or.inr (Or.inr rfl), rfl⟩
  | readFail m =>
    exact ⟨errorMsg ("stream read error: " ++ m), by simp [liveTerminal, hx],
      Or.inr (Or.inl rfl), rfl⟩
  | done =>
    exact ⟨statusMsg .finished
        [("total_bytes", toString out.totalBytes),
         ("total_chunks", toString out.seq),
         ("duration_sec", ds),
         ("text_length", toString text.utf8ByteSize)],
      by simp [liveTerminal, hx], Or.inl rfl, rfl⟩

theorem statuses_of_live_trace (a b : SynthesisResponse) (v : String)
    (q : SynthesizeRequest) (l : List SynthesisResponse) (rT : SynthesisResponse) :
    sentStatuses (Event.send a :: Event.invoke v q :: Event.send b ::
        (l.map Event.send ++ [Event.send rT]))
      = a.status :: b.status :: (l.map (fun r => r.status) ++ [rT.status]) := by
  simp [sentStatuses, sentResponses, List.filterMap_append, List.filterMap_cons]
  induction l with
  | nil => rfl
  | cons r rest ih => simpa using ih

end Server

/-- Claim C1: for every request run to completion, the emitted status
sequence is a single `ERROR` when validation fails, and otherwise starts
with `STARTED`, ends with exactly one of `FINISHED`, `ERROR` or
`INTERRUPTED`, with every message strictly in between being `PLAYING`. -/
theorem C1_status_shape (cfg : Server.Config) (text : String)
    (reqMeta : List (String × String)) (cacheOn : Bool)
    (cacheGet : Option (List Nat)) (synthErr : Option String)
    (reads : List (List Nat × Server.ReadErr)) (cancelAt : Option Nat)
    (cancelReason durationStr : String) :
    (text = "" →
      Server.sentStatuses (Server.StreamSynthesis cfg text reqMeta cacheOn cacheGet
          synthErr reads cancelAt cancelReason durationStr)
        = [Server.SynthesisStatus.error]) ∧
    (text ≠ "" →
      ∃ (n : Nat) (t : Server.SynthesisStatus),
        Server.sentStatuses (Server.StreamSynthesis cfg text reqMeta cacheOn cacheGet
            synthErr reads cancelAt cancelReason durationStr)
          = Server.SynthesisStatus.started ::
              (List.replicate n Server.SynthesisStatus.playing ++ [t]) ∧
          (t = Server.SynthesisStatus.finished ∨ t = Server.SynthesisStatus.error ∨
            t = Server.SynthesisStatus.interrupted)) := by
  constructor
  · intro ht
    subst ht
    rw [Server.StreamSynthesis_empty]
    rfl
  · intro ht
    have hmiss_case : ∀ (hmiss : cacheOn = false ∨ cacheGet = none),
        ∃ (n : Nat) (t : Server.SynthesisStatus),
          Server.sentStatuses (Server.StreamSynthesis cfg text reqMeta cacheOn cacheGet
              synthErr reads cancelAt cancelReason durationStr)
            = Server.SynthesisStatus.started ::
                (List.replicate n Server.SynthesisStatus.playing ++ [t]) ∧
            (t = Server.SynthesisStatus.finished ∨ t = Server.SynthesisStatus.error ∨
              t = Server.SynthesisStatus.interrupted) := by
      intro hmiss
      cases synthErr with
      | some m =>
        rw [Server.StreamSynthesis_missFail cfg text reqMeta cacheOn cacheGet m reads
          cancelAt cancelReason durationStr ht hmiss]
        exact ⟨0, Server.SynthesisStatus.error, rfl, by simp⟩
      | none =>
        obtain ⟨rT, hT, hTs, -⟩ := Server.liveTerminal_cases
          (Server.liveLoop cancelAt cacheOn reads 0 0 0 []) cancelReason durationStr text
        rw [Server.StreamSynthesis_missOk cfg text reqMeta cacheOn cacheGet reads
          cancelAt cancelReason durationStr ht hmiss, hT]
        rw [Server.statuses_of_live_trace]
        have hall : ∀ s ∈ (Server.liveLoop cancelAt cacheOn reads 0 0 0 []).msgs.map
            (fun r => r.status), s = Server.SynthesisStatus.playing := by
          intro s hs
          obtain ⟨r, hr, hrs⟩ := List.mem_map.mp hs
          obtain ⟨c, hc, -, -⟩ := Server.liveLoop_char cancelAt cacheOn reads 0 0 0 [] r hr
          rw [← hrs, hc]
          rfl
        refine ⟨((Server.liveLoop cancelAt cacheOn reads 0 0 0 []).msgs.map
            (fun r => r.status)).length + 1, rT.status, ?_, hTs⟩
        rw [List.eq_replicate_of_mem hall]
        simp [List.replicate_succ, Server.statusMsg]
    by_cases hOn : cacheOn = true
    · cases hGet : cacheGet with
      | none =>
        rw [← hGet]
        exact hmiss_case (Or.inr hGet)
      | some data =>
        subst hOn
        rw [Server.StreamSynthesis_hit cfg text reqMeta data synthErr reads cancelAt
          cancelReason durationStr ht]
        obtain ⟨n, t, hmap, hterm⟩ :=
          Server.streamFromBytes_statuses data text cancelAt cancelReason
        refine ⟨n + 1, t, ?_, by tauto⟩
        have hs : Server.sentStatuses
            (Server.Event.send (Server.statusMsg .started []) ::
              (Server.streamFromBytes data text cancelAt cancelReason).map
                Server.Event.send)
            = Server.SynthesisStatus.started ::
                (Server.streamFromBytes data text cancelAt cancelReason).map
                  (fun r => r.status) := by
          simp [Server.sentStatuses, Server.sentResponses_cons_send,
            Server.sentResponses_map_send, Server.statusMsg]
        rw [hs, hmap]
        simp [List.replicate_succ]
    · exact hmiss_case (Or.inl (by cases cacheOn with
        | false => rfl
        | true => exact absurd rfl hOn))

/-- Witness for C1 at a concrete request: non-empty text on the live path
with a two-read upstream. -/
theorem C1_status_shape_witness :
    ("hi" : String) ≠ "" ∧
      ∃ (n : Nat) (t : Server.SynthesisStatus),
        Server.sentStatuses (Server.StreamSynthesis
            ⟨"m1", "v1", "auto", none, none, none⟩ "hi" [] false none none
            [([1, 2, 3, 4], .ok), ([], .eof)] none "ctx" "0.10")
          = Server.SynthesisStatus.started ::
              (List.replicate n Server.SynthesisStatus.playing ++ [t]) ∧
          (t = Server.SynthesisStatus.finished ∨ t = Server.SynthesisStatus.error ∨
            t = Server.SynthesisStatus.interrupted) :=
  ⟨by decide,
    (C1_status_shape ⟨"m1", "v1", "auto", none, none, none⟩ "hi" [] false none none
      [([1, 2, 3, 4], .ok), ([], .eof)] none "ctx" "0.10").2 (by decide)⟩

namespace Server

theorem sent_of_live_trace (a b : SynthesisResponse) (v : String)
    (q : SynthesizeRequest) (l : List SynthesisResponse) (rT : SynthesisResponse) :
    sentResponses (Event.send a :: Event.invoke v q :: Event.send b ::
        (l.map Event.send ++ [Event.send rT]))
      = a :: b :: (l ++ [rT]) := by
  simp only [sentResponses_cons_send]
  have : sentResponses (Event.invoke v q :: Event.send b ::
      (l.map Event.send ++ [Event.send rT])) = b :: (l ++ [rT]) := by
    show sentResponses (Event.send b :: (l.map Event.send ++ [Event.send rT]))
        = b :: (l ++ [rT])
    rw [sentResponses_cons_send, sentResponses_append, sentResponses_map_send]
    rfl
  rw [this]

/-- On the cache-hit path the trace chunks are exactly the replay-loop
chunks. -/
theorem chunks_hit_eq (cfg : Config) (text : String)
    (reqMeta : List (String × String)) (data : List Nat)
    (synthErr : Option String) (reads : List (List Nat × ReadErr))
    (cancelAt : Option Nat) (cancelReason durationStr : String) (ht : text ≠ "") :
    chunks (StreamSynthesis cfg text reqMeta true (some data) synthErr reads
        cancelAt cancelReason durationStr)
      = (replayChunks cancelAt data 0 0).1.filterMap (fun r => r.chunk) := by
  rw [StreamSynthesis_hit cfg text reqMeta data synthErr reads cancelAt
    cancelReason durationStr ht]
  rw [chunks, sentResponses_cons_send, sentResponses_map_send]
  simp only [streamFromBytes, List.filterMap_cons, statusMsg, List.filterMap_append]
  by_cases hi : (replayChunks cancelAt data 0 0).2.2 <;> simp [hi]

/-- Away from the cache-hit path every trace chunk comes from a live-loop
message. -/
theorem chunks_live_sub (cfg : Config) (text : String)
    (reqMeta : List (String × String)) (cacheOn : Bool)
    (cacheGet : Option (List Nat)) (synthErr : Option String)
    (reads : List (List Nat × ReadErr)) (cancelAt : Option Nat)
    (cancelReason durationStr : String)
    (hmiss : cacheOn = false ∨ cacheGet = none) :
    ∀ c ∈ chunks (StreamSynthesis cfg text reqMeta cacheOn cacheGet synthErr reads
        cancelAt cancelReason durationStr),
      ∃ r ∈ (liveLoop cancelAt cacheOn reads 0 0 0 []).msgs, r.chunk = some c := by
  intro c hc
  rw [chunks] at hc
  obtain ⟨r, hr, hrc⟩ := List.mem_filterMap.mp hc
  by_cases ht : text = ""
  · subst ht
    rw [StreamSynthesis_empty] at hr
    simp only [sentResponses_cons_send, sentResponses_nil, List.mem_singleton] at hr
    rw [hr] at hrc
    simp [errorMsg] at hrc
  · cases synthErr with
    | some m =>
      rw [StreamSynthesis_missFail cfg text reqMeta cacheOn cacheGet m reads
        cancelAt cancelReason durationStr ht hmiss] at hr
      have : sentResponses [Event.send (statusMsg .started []),
          Event.invoke cfg.voiceID (buildReq cfg text reqMeta),
          Event.send (errorMsg ("synthesis failed: " ++ m))]
          = [statusMsg .started [], errorMsg ("synthesis failed: " ++ m)] := rfl
      rw [this] at hr
      rcases List.mem_cons.mp hr with h | h
      · rw [h] at hrc; simp [statusMsg] at hrc
      · simp only [List.mem_singleton] at h
        rw [h] at hrc
        simp [errorMsg] at hrc
    | none =>
      obtain ⟨rT, hT, -, hTc⟩ := liveTerminal_cases
        (liveLoop cancelAt cacheOn reads 0 0 0 []) cancelReason durationStr text
      rw [StreamSynthesis_missOk cfg text reqMeta cacheOn cacheGet reads
        cancelAt cancelReason durationStr ht hmiss, hT] at hr
      rw [sent_of_live_trace] at hr
      rcases List.mem_cons.mp hr with h | h
      · rw [h] at hrc; simp [statusMsg] at hrc
      rcases List.mem_cons.mp h with h' | h'
      · rw [h'] at hrc; simp [statusMsg] at hrc
      rcases List.mem_append.mp h' with h2 | h2
      · exact ⟨r, h2, hrc⟩
      · simp only [List.mem_singleton] at h2
        rw [h2] at hrc
        rw [hTc] at hrc
        simp at hrc

end Server

/-- Claim C8: every emitted chunk, on both the cache-replay and live paths,
has `durationMs = (len(chunk) / 2) * 1000 / 16000` in truncating integer
arithmetic, computed on exactly that chunk's byte count; in particular a
4096-byte chunk yields 128 ms and a 904-byte chunk yields 28 ms. -/
theorem C8_chunk_duration (cfg : Server.Config) (text : String)
    (reqMeta : List (String × String)) (cacheOn : Bool)
    (cacheGet : Option (List Nat)) (synthErr : Option String)
    (reads : List (List Nat × Server.ReadErr)) (cancelAt : Option Nat)
    (cancelReason durationStr : String) :
    (∀ c ∈ Server.chunks (Server.StreamSynthesis cfg text reqMeta cacheOn cacheGet
        synthErr reads cancelAt cancelReason durationStr),
      c.durationMs = c.data.length / 2 * 1000 / 16000) ∧
      Server.chunkDurationMs 4096 = 128 ∧ Server.chunkDurationMs 904 = 28 := by
  refine ⟨?_, by decide, by decide⟩
  intro c hc
  by_cases ht : text = ""
  · subst ht
    rw [Server.StreamSynthesis_empty] at hc
    simp [Server.chunks, Server.sentResponses, Server.errorMsg] at hc
  · by_cases hhit : cacheOn = true ∧ ∃ data, cacheGet = some data
    · obtain ⟨hOn, data, hGet⟩ := hhit
      subst hOn
      subst hGet
      rw [Server.chunks_hit_eq cfg text reqMeta data synthErr reads cancelAt
        cancelReason durationStr ht] at hc
      obtain ⟨r, hr, hrc⟩ := List.mem_filterMap.mp hc
      obtain ⟨c0, hc0, hdur⟩ := Server.replayChunks_char cancelAt data.length data 0 0
        le_rfl r hr
      rw [hc0] at hrc
      simp only [Server.chunkMsg, Option.some.injEq] at hrc
      subst hrc
      rw [hdur]
      rfl
    · have hmiss : cacheOn = false ∨ cacheGet = none := by
        cases cacheOn with
        | false => exact Or.inl rfl
        | true =>
          cases hGet : cacheGet with
          | none => exact Or.inr rfl
          | some data => exact absurd ⟨rfl, data, hGet⟩ hhit
      obtain ⟨r, hr, hrc⟩ := Server.chunks_live_sub cfg text reqMeta cacheOn cacheGet
        synthErr reads cancelAt cancelReason durationStr hmiss c hc
      obtain ⟨c0, hc0, hdur, -⟩ := Server.liveLoop_char cancelAt cacheOn reads 0 0 0 [] r hr
      rw [hc0] at hrc
      simp only [Server.chunkMsg, Option.some.injEq] at hrc
      subst hrc
      rw [hdur]
      rfl

/-- Witness for C8 at a concrete live request whose single read returns four
bytes together with `io.EOF`. -/
theorem C8_chunk_duration_witness :
    (⟨[1, 2, 3, 4], 1, true, true, 0⟩ : Server.AudioChunk) ∈ Server.chunks
        (Server.StreamSynthesis ⟨"m1", "v1", "auto", none, none, none⟩ "hi" [] false
          none none [([1, 2, 3, 4], .eof)] none "c" "0.10") ∧
      (⟨[1, 2, 3, 4], 1, true, true, 0⟩ : Server.AudioChunk).durationMs
        = (⟨[1, 2, 3, 4], 1, true, true, 0⟩ : Server.AudioChunk).data.length / 2
            * 1000 / 16000 :=
  ⟨by decide,
    (C8_chunk_duration ⟨"m1", "v1", "auto", none, none, none⟩ "hi" [] false none none
      [([1, 2, 3, 4], .eof)] none "c" "0.10").1 _ (by decide)⟩

/-- Claim C9: on the live path, a chunk carries `last = true` only when its
own read also returned `io.EOF`; for an upstream that signals end-of-stream
on a separate empty read no live chunk is ever marked `last`, whereas the
cache-replay path always marks its final chunk `last = true`. -/
theorem C9_last_flag (cfg : Server.Config) (text : String)
    (reqMeta : List (String × String)) (cacheOn : Bool)
    (cacheGet : Option (List Nat)) (synthErr : Option String)
    (reads : List (List Nat × Server.ReadErr)) (cancelAt : Option Nat)
    (cancelReason durationStr : String) (data : List Nat) :
    ((cacheOn = false ∨ cacheGet = none) →
      (∀ p ∈ reads, p.2 = Server.ReadErr.eof → p.1 = []) →
      ∀ c ∈ Server.chunks (Server.StreamSynthesis cfg text reqMeta cacheOn cacheGet
          synthErr reads cancelAt cancelReason durationStr),
        c.last = false) ∧
    (cacheOn = true → cacheGet = some data → text ≠ "" → data ≠ [] →
      cancelAt = none →
      ∃ c, (Server.chunks (Server.StreamSynthesis cfg text reqMeta cacheOn cacheGet
          synthErr reads cancelAt cancelReason durationStr)).getLast? = some c ∧
        c.last = true) := by
  constructor
  · intro hmiss hreads c hc
    obtain ⟨r, hr, hrc⟩ := Server.chunks_live_sub cfg text reqMeta cacheOn cacheGet
      synthErr reads cancelAt cancelReason durationStr hmiss c hc
    obtain ⟨c0, hc0, -, hlast⟩ := Server.liveLoop_char cancelAt cacheOn reads 0 0 0 [] r hr
    rw [hc0] at hrc
    simp only [Server.chunkMsg, Option.some.injEq] at hrc
    subst hrc
    cases hcl : c0.last with
    | false => rfl
    | true =>
      obtain ⟨p, hp, hpe, hpn⟩ := hlast hcl
      exact absurd (hreads p hp hpe) hpn
  · intro hOn hGet ht hne hca
    subst hOn
    subst hGet
    subst hca
    rw [Server.chunks_hit_eq cfg text reqMeta data synthErr reads none
      cancelReason durationStr ht]
    exact Server.replayChunks_last data.length data 0 0 le_rfl hne

/-- Witness for C9 at a concrete cache hit replaying two bytes. -/
theorem C9_last_flag_witness :
    (([1, 2] : List Nat) ≠ [] ∧ ("hi" : String) ≠ "") ∧
      ∃ c, (Server.chunks (Server.StreamSynthesis
          ⟨"m1", "v1", "auto", none, none, none⟩ "hi" [] true (some [1, 2]) none []
          none "c" "0.10")).getLast? = some c ∧ c.last = true :=
  ⟨⟨by decide, by decide⟩,
    (C9_last_flag ⟨"m1", "v1", "auto", none, none, none⟩ "hi" [] true (some [1, 2])
      none [] none "c" "0.10" [1, 2]).2 rfl rfl (by decide) (by decide) rfl⟩

namespace Server

theorem invokes_cons_send (r : SynthesisResponse) (tr : List Event) :
    invokes (Event.send r :: tr) = invokes tr := rfl

theorem invokes_map_send (l : List SynthesisResponse) :
    invokes (l.map Event.send) = [] := by
  induction l with
  | nil => rfl
  | cons r rest ih => simpa [invokes_cons_send] using ih

/-- A `FINISHED` terminal of the live loop carries exactly the completion
metadata of the code: `total_bytes`, `total_chunks`, `duration_sec`,
`text_length`. -/
theorem liveTerminal_finished (out : LoopOut) (cr ds text : String)
    (rT : SynthesisResponse) (hT : liveTerminal out cr ds text = .send rT)
    (hf : rT.status = SynthesisStatus.finished) :
    rT.metadata = [("total_bytes", toString out.totalBytes),
                   ("total_chunks", toString out.seq),
                   ("duration_sec", ds),
                   ("text_length", toString text.utf8ByteSize)] := by
  cases hx : out.exit with
  | interrupted =>
    rw [liveTerminal, hx] at hT
    simp only [Event.send.injEq] at hT
    rw [← hT] at hf
    simp [statusMsg] at hf
  | readFail m =>
    rw [liveTerminal, hx] at hT
    simp only [Event.send.injEq] at hT
    rw [← hT] at hf
    simp [errorMsg] at hf
  | done =>
    rw [liveTerminal, hx] at hT
    simp only [Event.send.injEq] at hT
    rw [← hT]
    rfl

/-- If no element of the list satisfies `q`, nothing occurs before a `q`. -/
theorem occursBefore_of_no_q {α : Type} (p q : α → Bool) (l : List α)
    (h : ∀ e ∈ l, q e = false) : occursBefore p q l = false := by
  induction l with
  | nil => rfl
  | cons x rest ih =>
    simp only [occursBefore, Bool.or_eq_false_iff, Bool.and_eq_false_iff]
    constructor
    · right
      rw [List.any_eq_false]
      intro e he
      simp [h e (by simp [he])]
    · exact ih (fun e he => h e (by simp [he]))

end Server

/-- Counterexample to claim C5 as stated: a request whose derived key is
present in the configured cache but whose context is already cancelled
replays nothing — the concatenation of the emitted chunks is empty, not the
cached bytes (and no `FINISHED` message is emitted at all). -/
theorem C5_counterexample :
    Server.chunksData (Server.StreamSynthesis ⟨"m1", "v1", "auto", none, none, none⟩
        "hi" [] true (some [1, 2, 3]) none [] (some 0) "ctx" "0.10") = [] ∧
      ¬ Server.chunksData (Server.StreamSynthesis ⟨"m1", "v1", "auto", none, none, none⟩
          "hi" [] true (some [1, 2, 3]) none [] (some 0) "ctx" "0.10") = [1, 2, 3] := by
  have h : Server.chunks (Server.StreamSynthesis ⟨"m1", "v1", "auto", none, none, none⟩
      "hi" [] true (some [1, 2, 3]) none [] (some 0) "ctx" "0.10") = [] := by
    rw [Server.chunks_hit_eq _ _ _ _ _ _ _ _ _ (by decide)]
    rw [Server.replayChunks]
    simp [Server.cancelled]
  constructor
  · rw [Server.chunksData, h]
    rfl
  · rw [Server.chunksData, h]
    decide

/-- Claim C5, amended: on a cache hit the synthesizer is never invoked, and
if the request is not cancelled the concatenation of the emitted chunks is
exactly the cached bytes and the final message is `FINISHED` with
`source=cache` metadata; a cancelled replay stops early with `INTERRUPTED`
after a prefix of the chunks.  On the live path every `FINISHED` message
carries `total_bytes`, `total_chunks`, `duration_sec` and `text_length` and
no `source` key. -/
theorem C5_amended (cfg : Server.Config) (text : String)
    (reqMeta : List (String × String)) (cacheOn : Bool)
    (cacheGet : Option (List Nat)) (synthErr : Option String)
    (reads : List (List Nat × Server.ReadErr)) (cancelAt : Option Nat)
    (cancelReason durationStr : String) (data : List Nat) :
    (cacheOn = true → cacheGet = some data → text ≠ "" →
      Server.invokes (Server.StreamSynthesis cfg text reqMeta cacheOn cacheGet
          synthErr reads cancelAt cancelReason durationStr) = [] ∧
      (cancelAt = none →
        Server.chunksData (Server.StreamSynthesis cfg text reqMeta cacheOn cacheGet
            synthErr reads cancelAt cancelReason durationStr) = data ∧
        ∃ md, (Server.sentResponses (Server.StreamSynthesis cfg text reqMeta cacheOn
            cacheGet synthErr reads cancelAt cancelReason durationStr)).getLast?
              = some (Server.statusMsg .finished md) ∧
          lookupA md "source" = some "cache" ∧
          (lookupA md "total_bytes").isSome ∧
          (lookupA md "total_chunks").isSome ∧
          (lookupA md "text_length").isSome)) ∧
    ((cacheOn = false ∨ cacheGet = none) →
      ∀ r ∈ Server.sentResponses (Server.StreamSynthesis cfg text reqMeta cacheOn
          cacheGet synthErr reads cancelAt cancelReason durationStr),
        r.status = Server.SynthesisStatus.finished →
        (lookupA r.metadata "total_bytes").isSome ∧
        (lookupA r.metadata "total_chunks").isSome ∧
        (lookupA r.metadata "duration_sec").isSome ∧
        (lookupA r.metadata "text_length").isSome ∧
        lookupA r.metadata "source" = none) := by
  constructor
  · intro hOn hGet ht
    subst hOn
    subst hGet
    rw [Server.StreamSynthesis_hit cfg text reqMeta data synthErr reads cancelAt
      cancelReason durationStr ht]
    constructor
    · rw [Server.invokes_cons_send, Server.invokes_map_send]
    · intro hca
      subst hca
      have hnone := Server.replayChunks_none data.length data 0 0 le_rfl
      constructor
      · rw [Server.chunksData,
          ← Server.StreamSynthesis_hit cfg text reqMeta data synthErr reads none
            cancelReason durationStr ht,
          Server.chunks_hit_eq cfg text reqMeta data synthErr reads none
            cancelReason durationStr ht]
        exact hnone.2
      · refine ⟨[("total_bytes", toString data.length),
            ("total_chunks", toString (Server.replayChunks none data 0 0).2.1),
            ("text_length", toString text.utf8ByteSize),
            ("source", "cache")], ?_, rfl, rfl, rfl, rfl⟩
        rw [Server.sentResponses_cons_send, Server.sentResponses_map_send]
        rw [Server.streamFromBytes]
        simp only [hnone.1, Bool.false_eq_true, if_false]
        rw [show Server.statusMsg .started [] :: Server.statusMsg .playing [] ::
            ((Server.replayChunks none data 0 0).1 ++
              [Server.statusMsg .finished
                [("total_bytes", toString data.length),
                 ("total_chunks", toString (Server.replayChunks none data 0 0).2.1),
                 ("text_length", toString text.utf8ByteSize),
                 ("source", "cache")]])
          = (Server.statusMsg .started [] :: Server.statusMsg .playing [] ::
              (Server.replayChunks none data 0 0).1) ++
              [Server.statusMsg .finished
                [("total_bytes", toString data.length),
                 ("total_chunks", toString (Server.replayChunks none data 0 0).2.1),
                 ("text_length", toString text.utf8ByteSize),
                 ("source", "cache")]] by simp]
        exact List.getLast?_concat _
  · intro hmiss r hr hf
    by_cases ht : text = ""
    · subst ht
      rw [Server.StreamSynthesis_empty] at hr
      simp only [Server.sentResponses_cons_send, Server.sentResponses_nil,
        List.mem_singleton] at hr
      rw [hr] at hf
      simp [Server.errorMsg] at hf
    · cases synthErr with
      | some m =>
        rw [Server.StreamSynthesis_missFail cfg text reqMeta cacheOn cacheGet m reads
          cancelAt cancelReason durationStr ht hmiss] at hr
        have hsr : Server.sentResponses [Server.Event.send (Server.statusMsg .started []),
            Server.Event.invoke cfg.voiceID (Server.buildReq cfg text reqMeta),
            Server.Event.send (Server.errorMsg ("synthesis failed: " ++ m))]
            = [Server.statusMsg .started [],
               Server.errorMsg ("synthesis failed: " ++ m)] := rfl
        rw [hsr] at hr
        rcases List.mem_cons.mp hr with h | h
        · rw [h] at hf; simp [Server.statusMsg] at hf
        · simp only [List.mem_singleton] at h
          rw [h] at hf
          simp [Server.errorMsg] at hf
      | none =>
        obtain ⟨rT, hT, -, -⟩ := Server.liveTerminal_cases
          (Server.liveLoop cancelAt cacheOn reads 0 0 0 []) cancelReason durationStr text
        rw [Server.StreamSynthesis_missOk cfg text reqMeta cacheOn cacheGet reads
          cancelAt cancelReason durationStr ht hmiss, hT] at hr
        rw [Server.sent_of_live_trace] at hr
        rcases List.mem_cons.mp hr with h | h
        · rw [h] at hf; simp [Server.statusMsg] at hf
        rcases List.mem_cons.mp h with h' | h'
        · rw [h'] at hf; simp [Server.statusMsg] at hf
        rcases List.mem_append.mp h' with h2 | h2
        · obtain ⟨c0, hc0, -, -⟩ := Server.liveLoop_char cancelAt cacheOn reads 0 0 0 [] r h2
          rw [hc0] at hf
          simp [Server.chunkMsg] at hf
        · simp only [List.mem_singleton] at h2
          subst h2
          have hmd := Server.liveTerminal_finished
            (Server.liveLoop cancelAt cacheOn reads 0 0 0 []) cancelReason durationStr
            text r hT hf
          rw [hmd]
          exact ⟨rfl, rfl, rfl, rfl, rfl⟩

/-- Witness for C5 at a concrete uncancelled cache hit over three bytes. -/
theorem C5_amended_witness :
    ("hi" : String) ≠ "" ∧
      Server.invokes (Server.StreamSynthesis ⟨"m1", "v1", "auto", none, none, none⟩
        "hi" [] true (some [1, 2, 3]) none [] none "c" "0.10") = [] ∧
      Server.chunksData (Server.StreamSynthesis ⟨"m1", "v1", "auto", none, none, none⟩
        "hi" [] true (some [1, 2, 3]) none [] none "c" "0.10") = [1, 2, 3] :=
  ⟨by decide,
    ((C5_amended ⟨"m1", "v1", "auto", none, none, none⟩ "hi" [] true (some [1, 2, 3])
        none [] none "c" "0.10" [1, 2, 3]).1 rfl rfl (by decide)).1,
    (((C5_amended ⟨"m1", "v1", "auto", none, none, none⟩ "hi" [] true (some [1, 2, 3])
        none [] none "c" "0.10" [1, 2, 3]).1 rfl rfl (by decide)).2 rfl).1⟩

/-- Counterexample to claim C6 as stated: on a concrete cache-disabled
request the coordinator does not emit any `PLAYING` message before the
synthesizer invocation — the invocation strictly precedes the first
`PLAYING`. -/
theorem C6_counterexample :
    Server.occursBefore Server.isPlayingSend Server.isInvoke
        (Server.StreamSynthesis ⟨"m1", "v1", "auto", none, none, none⟩ "hi" [] false
          none none [([0, 1], .eof)] none "c" "0.10") = false := by
  decide

/-- Claim C6, amended: on the cache-miss (or cache-disabled) path the
coordinator invokes the synthesizer first and emits the status-only
`PLAYING` only after the invocation returns successfully (no `PLAYING` ever
precedes the invocation, and on success the invocation precedes a
`PLAYING`); the invoked request carries the resolved language unless it is
`"auto"`, in which case the language field is omitted. -/
theorem C6_amended (cfg : Server.Config) (text : String)
    (reqMeta : List (String × String)) (cacheOn : Bool)
    (cacheGet : Option (List Nat)) (synthErr : Option String)
    (reads : List (List Nat × Server.ReadErr)) (cancelAt : Option Nat)
    (cancelReason durationStr : String) (ht : text ≠ "")
    (hmiss : cacheOn = false ∨ cacheGet = none) :
    Server.occursBefore Server.isPlayingSend Server.isInvoke
        (Server.StreamSynthesis cfg text reqMeta cacheOn cacheGet synthErr reads
          cancelAt cancelReason durationStr) = false ∧
      Server.Event.invoke cfg.voiceID (Server.buildReq cfg text reqMeta)
        ∈ Server.StreamSynthesis cfg text reqMeta cacheOn cacheGet synthErr reads
            cancelAt cancelReason durationStr ∧
      (Server.buildReq cfg text reqMeta).languageCode
        = (if Server.resolveLanguage cfg.language reqMeta = "auto" then none
           else some (Server.resolveLanguage cfg.language reqMeta)) ∧
      (synthErr = none →
        Server.occursBefore Server.isInvoke Server.isPlayingSend
            (Server.StreamSynthesis cfg text reqMeta cacheOn cacheGet synthErr reads
              cancelAt cancelReason durationStr) = true) := by
  have hlang : (Server.buildReq cfg text reqMeta).languageCode
      = (if Server.resolveLanguage cfg.language reqMeta = "auto" then none
         else some (Server.resolveLanguage cfg.language reqMeta)) := by
    by_cases ha : Server.resolveLanguage cfg.language reqMeta = "auto" <;>
      simp [Server.buildReq, ha]
  cases synthErr with
  | some m =>
    rw [Server.StreamSynthesis_missFail cfg text reqMeta cacheOn cacheGet m reads
      cancelAt cancelReason durationStr ht hmiss]
    refine ⟨?_, by simp, hlang, by intro h; exact absurd h (by simp)⟩
    simp [Server.occursBefore, Server.isPlayingSend, Server.isInvoke,
      Server.statusMsg, Server.errorMsg]
  | none =>
    rw [Server.StreamSynthesis_missOk cfg text reqMeta cacheOn cacheGet reads
      cancelAt cancelReason durationStr ht hmiss]
    refine ⟨?_, by simp, hlang, ?_⟩
    · have hnoq : ∀ e ∈ (Server.liveLoop cancelAt cacheOn reads 0 0 0 []).msgs.map
          Server.Event.send ++ [Server.liveTerminal
            (Server.liveLoop cancelAt cacheOn reads 0 0 0 []) cancelReason durationStr
            text], Server.isInvoke e = false := by
        intro e he
        rcases List.mem_append.mp he with h2 | h2
        · obtain ⟨r, -, hrs⟩ := List.mem_map.mp h2
          rw [← hrs]
          rfl
        · simp only [List.mem_singleton] at h2
          obtain ⟨rT, hT, -, -⟩ := Server.liveTerminal_cases
            (Server.liveLoop cancelAt cacheOn reads 0 0 0 []) cancelReason durationStr
            text
          rw [h2, hT]
          rfl
      have hany : ((Server.liveLoop cancelAt cacheOn reads 0 0 0 []).msgs.map
          Server.Event.send ++ [Server.liveTerminal
            (Server.liveLoop cancelAt cacheOn reads 0 0 0 []) cancelReason durationStr
            text]).any Server.isInvoke = false := by
        rw [List.any_eq_false]
        intro e he
        simp [hnoq e he]
      simp [Server.occursBefore, Server.isPlayingSend, Server.isInvoke,
        Server.statusMsg, hany, Server.occursBefore_of_no_q _ _ _ hnoq]
    · intro _
      simp [Server.occursBefore, Server.isInvoke, Server.isPlayingSend,
        Server.statusMsg, List.any_cons]

/-- Witness for C6 at a concrete cache-disabled request with a successful
synthesizer call. -/
theorem C6_amended_witness :
    ("hi" : String) ≠ "" ∧
      Server.occursBefore Server.isPlayingSend Server.isInvoke
          (Server.StreamSynthesis ⟨"m1", "v1", "pl", none, none, none⟩ "hi" [] false
            none none [([0, 1], .eof)] none "c" "0.10") = false ∧
      (Server.buildReq ⟨"m1", "v1", "pl", none, none, none⟩ "hi" []).languageCode
        = (if Server.resolveLanguage "pl" [] = "auto" then none
           else some (Server.resolveLanguage "pl" [])) ∧
      Server.occursBefore Server.isInvoke Server.isPlayingSend
          (Server.StreamSynthesis ⟨"m1", "v1", "pl", none, none, none⟩ "hi" [] false
            none none [([0, 1], .eof)] none "c" "0.10") = true :=
  ⟨by decide,
    (C6_amended ⟨"m1", "v1", "pl", none, none, none⟩ "hi" [] false none none
      [([0, 1], .eof)] none "c" "0.10" (by decide) (Or.inl rfl)).1,
    (C6_amended ⟨"m1", "v1", "pl", none, none, none⟩ "hi" [] false none none
      [([0, 1], .eof)] none "c" "0.10" (by decide) (Or.inl rfl)).2.2.1,
    (C6_amended ⟨"m1", "v1", "pl", none, none, none⟩ "hi" [] false none none
      [([0, 1], .eof)] none "c" "0.10" (by decide) (Or.inl rfl)).2.2.2 rfl⟩

theorem mem_keys_of_lookupA {α : Type} (l : List (String × α)) (k : String)
    (h : (lookupA l k).isSome) : k ∈ l.map Prod.fst := by
  induction l with
  | nil => simp [lookupA] at h
  | cons p rest ih =>
    simp only [lookupA] at h
    by_cases hk : p.1 = k
    · simp [← hk]
    · simp only [hk, if_false] at h
      simp [ih h]

theorem lookupA_eq_none_of_not_mem {α : Type} (l : List (String × α)) (k : String)
    (h : k ∉ l.map Prod.fst) : lookupA l k = none := by
  cases hl : lookupA l k with
  | none => rfl
  | some v => exact absurd (mem_keys_of_lookupA l k (by simp [hl])) h

theorem not_mem_keys_eraseA {α : Type} (l : List (String × α)) (k : String)
    (hnd : (l.map Prod.fst).Nodup) : k ∉ (eraseA l k).map Prod.fst := by
  induction l with
  | nil => simp [eraseA]
  | cons p rest ih =>
    simp only [List.map_cons, List.nodup_cons] at hnd
    simp only [eraseA]
    by_cases hk : p.1 = k
    · simp only [hk, if_true]
      rw [← hk]
      exact hnd.1
    · simp only [hk, if_false, List.map_cons, List.mem_cons]
      intro hmem
      rcases hmem with h | h
      · exact hk h.symm
      · exact ih hnd.2 h

/-- Counterexample to claim C2 as stated: a failing write of a `Put` on a key
that is already cached removes the old entry from the index before the
write is attempted, so the index after the call differs from the index
before it (here it has become empty). -/
theorem C2_counterexample :
    (Cache.Put ⟨"d", 10, [("k", ⟨5, 0, "d/k.pcm"⟩)]⟩ [("d/k.pcm", [1, 2, 3, 4, 5])]
        1 "k" [9, 9] false).2.2 = some "cache: write" ∧
      (Cache.Put ⟨"d", 10, [("k", ⟨5, 0, "d/k.pcm"⟩)]⟩ [("d/k.pcm", [1, 2, 3, 4, 5])]
          1 "k" [9, 9] false).1.entries = [] ∧
      ([] : List (String × Cache.Entry)) ≠ [("k", ⟨5, 0, "d/k.pcm"⟩)] := by
  refine ⟨?_, ?_, by decide⟩ <;>
    simp [Cache.Put, Cache.putPrepare, lookupA, eraseA, Cache.evict, Cache.totalSize]

/-- After the pre-write stage of `Put` on a well-formed index, no binding
for the key remains. -/
theorem putPrepare_keys (c : Cache.State) (d : Cache.Disk) (k : String) (n : Nat)
    (hnd : (c.entries.map Prod.fst).Nodup) :
    k ∉ (Cache.putPrepare c d k n).1.map Prod.fst := by
  intro hmem
  cases hL : lookupA c.entries k with
  | none =>
    have hev : (Cache.putPrepare c d k n).1.Sublist c.entries := by
      simp only [Cache.putPrepare, hL]
      exact Cache.evict_sublist _ _ _ _
    have hmem2 : k ∈ c.entries.map Prod.fst := (hev.map Prod.fst).mem hmem
    have hs := lookupA_isSome_of_mem c.entries k hmem2
    rw [hL] at hs
    simp at hs
  | some old =>
    have hev : (Cache.putPrepare c d k n).1.Sublist (eraseA c.entries k) := by
      simp only [Cache.putPrepare, hL]
      exact Cache.evict_sublist _ _ _ _
    exact not_mem_keys_eraseA c.entries k hnd ((hev.map Prod.fst).mem hmem)

/-- Claim C2, amended: for a `Put` within capacity whose backing-file write
fails, an error is returned and no entry for the key is inserted — the
index never references the new, incompletely written file — but the pre-write removal
of an existing entry for the same key and any evictions persist: the
resulting index contains no binding for the key, and every surviving entry
was already present before the call. -/
theorem C2_amended (c : Cache.State) (d : Cache.Disk) (now : Nat) (k : String)
    (data : List Nat) (h : ¬ data.length > c.maxBytes)
    (hnd : (c.entries.map Prod.fst).Nodup) :
    (Cache.Put c d now k data false).2.2 = some "cache: write" ∧
    lookupA (Cache.Put c d now k data false).1.entries k = none ∧
    ∀ p ∈ (Cache.Put c d now k data false).1.entries, p ∈ c.entries ∧ p.1 ≠ k := by
  obtain ⟨hent, herr⟩ := Cache.Put_failure c d now k data h
  have hknot := putPrepare_keys c d k data.length hnd
  refine ⟨herr, ?_, ?_⟩
  · rw [hent]
    exact lookupA_eq_none_of_not_mem _ k hknot
  · intro p hp
    rw [hent] at hp
    constructor
    · exact (Cache.putPrepare_sublist c d k data.length).mem hp
    · intro hpk
      apply hknot
      have hm : p.1 ∈ (Cache.putPrepare c d k data.length).1.map Prod.fst :=
        List.mem_map.mpr ⟨p, hp, rfl⟩
      rwa [hpk] at hm

/-- Witness for the amended C2 at a concrete one-entry cache. -/
theorem C2_amended_witness :
    (¬ ([9, 9] : List Nat).length > 10) ∧
      (Cache.Put ⟨"d", 10, [("k", ⟨5, 0, "d/k.pcm"⟩)]⟩ [("d/k.pcm", [1, 2, 3, 4, 5])]
          1 "k" [9, 9] false).2.2 = some "cache: write" ∧
      lookupA (Cache.Put ⟨"d", 10, [("k", ⟨5, 0, "d/k.pcm"⟩)]⟩
          [("d/k.pcm", [1, 2, 3, 4, 5])] 1 "k" [9, 9] false).1.entries "k" = none :=
  ⟨by decide,
    (C2_amended ⟨"d", 10, [("k", ⟨5, 0, "d/k.pcm"⟩)]⟩ [("d/k.pcm", [1, 2, 3, 4, 5])]
      1 "k" [9, 9] (by decide) (by decide)).1,
    (C2_amended ⟨"d", 10, [("k", ⟨5, 0, "d/k.pcm"⟩)]⟩ [("d/k.pcm", [1, 2, 3, 4, 5])]
      1 "k" [9, 9] (by decide) (by decide)).2.1⟩

/-- Claim C3: starting from a reload of a directory (with nonempty keys, as
all derived keys are) and across every sequence of cache operations, the
sum of the indexed entry sizes stays within the byte capacity; eviction in
isolation also always lands within capacity. -/
theorem C3_capacity_invariant (dir : String) (mx : Nat)
    (files : List (String × Nat × Nat)) (d : Cache.Disk) (ops : List Cache.Op)
    (hf : ∀ f ∈ files, f.1 ≠ "")
    (hops : ∀ now k data w, Cache.Op.put now k data w ∈ ops → k ≠ "") :
    Cache.totalSize (Cache.runOps (Cache.New dir mx files d) ops).1.entries ≤ mx ∧
    (∀ (needed : Nat) (es : List (String × Cache.Entry)) (dd : Cache.Disk),
      Cache.noEmptyKey es →
      Cache.totalSize (Cache.evict mx needed es dd).1 ≤ mx) := by
  constructor
  · have hinit := Cache.New_inv dir mx files d hf
    have hrun := Cache.runOps_inv (Cache.New dir mx files d) ops hops hinit.1
      (by rw [hinit.2.2]; exact hinit.2.1)
    have hmx : (Cache.runOps (Cache.New dir mx files d) ops).1.maxBytes = mx := by
      rw [hrun.2.2, hinit.2.2]
    have hfin := hrun.2.1
    rw [hmx] at hfin
    exact hfin
  · intro needed es dd hk
    exact Cache.evict_totalSize_le mx needed es dd hk

/-- Witness for C3: a reload over capacity followed by a successful put. -/
theorem C3_capacity_invariant_witness :
    Cache.totalSize (Cache.runOps (Cache.New "d" 10 [("a", 7, 0), ("b", 6, 1)] [])
        [Cache.Op.put 2 "k" [1, 2, 3] true]).1.entries ≤ 10 :=
  (C3_capacity_invariant "d" 10 [("a", 7, 0), ("b", 6, 1)] []
    [Cache.Op.put 2 "k" [1, 2, 3] true] (by decide)
    (by intro now k data w hw; simp at hw; rw [hw.2.1]; decide)).1

/-- Counterexample to claim C7 as stated: an oversized `Put` on a key that is
already cached leaves the old entry in place, so a subsequent `Get` on that
key is a hit, not a miss. -/
theorem C7_counterexample :
    (Cache.Put ⟨"d", 10, [("k", ⟨1, 0, "d/k.pcm"⟩)]⟩ [("d/k.pcm", [7])] 1 "k"
        [0, 0, 0, 0, 0, 0, 0, 0, 0, 0, 0] true).2.2 = none ∧
      (Cache.Get (Cache.Put ⟨"d", 10, [("k", ⟨1, 0, "d/k.pcm"⟩)]⟩ [("d/k.pcm", [7])]
          1 "k" [0, 0, 0, 0, 0, 0, 0, 0, 0, 0, 0] true).1
        (Cache.Put ⟨"d", 10, [("k", ⟨1, 0, "d/k.pcm"⟩)]⟩ [("d/k.pcm", [7])]
          1 "k" [0, 0, 0, 0, 0, 0, 0, 0, 0, 0, 0] true).2.1 2 "k").2 ≠ none := by
  constructor <;> decide

/-- Claim C7, amended: an oversized `Put` returns no error and leaves the
cache and the disk entirely unchanged; a subsequent `Get` on that key is a
miss provided the key was not already cached (if it was, the old entry is
still served). -/
theorem C7_amended (c : Cache.State) (d : Cache.Disk) (now now2 : Nat) (k : String)
    (data : List Nat) (w : Bool) (h : data.length > c.maxBytes) :
    Cache.Put c d now k data w = (c, d, none) ∧
    (lookupA c.entries k = none →
      (Cache.Get (Cache.Put c d now k data w).1 (Cache.Put c d now k data w).2.1
        now2 k).2 = none) := by
  have hp := Cache.Put_oversized c d now k data w h
  refine ⟨hp, ?_⟩
  intro hl
  rw [hp]
  simp [Cache.Get, hl]

/-- Witness for the amended C7 at a concrete empty cache. -/
theorem C7_amended_witness :
    (([0, 0, 0] : List Nat).length > 2) ∧
      Cache.Put ⟨"d", 2, []⟩ [] 1 "k" [0, 0, 0] true = (⟨"d", 2, []⟩, [], none) ∧
      (Cache.Get (Cache.Put ⟨"d", 2, []⟩ [] 1 "k" [0, 0, 0] true).1
        (Cache.Put ⟨"d", 2, []⟩ [] 1 "k" [0, 0, 0] true).2.1 2 "k").2 = none :=
  ⟨by decide,
    (C7_amended ⟨"d", 2, []⟩ [] 1 2 "k" [0, 0, 0] true (by decide)).1,
    (C7_amended ⟨"d", 2, []⟩ [] 1 2 "k" [0, 0, 0] true (by decide)).2 rfl⟩

namespace Cache

/-! ### Injectivity of the decimal renderings -/

theorem digitCh_lt_inj : ∀ a < 10, ∀ b < 10, digitCh a = digitCh b → a = b := by
  decide

theorem digitCh_ne_dash : ∀ a < 10, digitCh a ≠ '-' := by
  decide

theorem natDecAux_zero : ∀ fuel : Nat, natDecAux fuel 0 = [] := by
  intro fuel
  cases fuel <;> simp [natDecAux]

theorem natDecAux_eq_digits : ∀ (fuel n : Nat), n ≠ 0 → n ≤ fuel →
    natDecAux fuel n = ((Nat.digits 10 n).map digitCh).reverse := by
  intro fuel
  induction fuel with
  | zero => intro n hn h0; omega
  | succ f ih =>
    intro n hn hle
    rw [natDecAux]
    simp only [hn, if_false]
    rw [Nat.digits_def' (by norm_num : (1:Nat) < 10) (Nat.pos_of_ne_zero hn)]
    simp only [List.map_cons, List.reverse_cons]
    by_cases h10 : n / 10 = 0
    · rw [h10, natDecAux_zero]
      simp
    · rw [ih (n / 10) h10 ?_]
      have hdiv := Nat.div_lt_self (Nat.pos_of_ne_zero hn) (by norm_num : 1 < 10)
      omega

theorem map_digitCh_inj : ∀ (l1 l2 : List Nat), (∀ x ∈ l1, x < 10) →
    (∀ x ∈ l2, x < 10) → l1.map digitCh = l2.map digitCh → l1 = l2 := by
  intro l1
  induction l1 with
  | nil =>
    intro l2 _ _ h
    cases l2 with
    | nil => rfl
    | cons y ys => simp at h
  | cons x xs ih =>
    intro l2 h1 h2 h
    cases l2 with
    | nil => simp at h
    | cons y ys =>
      simp only [List.map_cons, List.cons.injEq] at h
      have hx := digitCh_lt_inj x (h1 x (by simp)) y (h2 y (by simp)) h.1
      rw [hx, ih ys (fun z hz => h1 z (by simp [hz])) (fun z hz => h2 z (by simp [hz])) h.2]

theorem natDec_inj (m n : Nat) (h : natDec m = natDec n) : m = n := by
  have key : ∀ k : Nat, k ≠ 0 → natDec k ≠ "0" := by
    intro k hk hcon
    have hd := congrArg String.data hcon
    rw [natDec] at hd
    simp only [hk, if_false] at hd
    rw [natDecAux_eq_digits k k hk le_rfl] at hd
    have hd2 := congrArg List.reverse hd
    rw [List.reverse_reverse] at hd2
    have hz : Nat.digits 10 k = [0] := by
      have h09 : (0:Nat) < 10 := by norm_num
      apply map_digitCh_inj
      · intro x hx; exact Nat.digits_lt_base (by norm_num) hx
      · intro x hx; simp at hx; omega
      · rw [hd2]; rfl
    have hlast := Nat.getLast_digit_ne_zero 10 hk
    simp [hz] at hlast
  by_cases hm : m = 0 <;> by_cases hn : n = 0
  · rw [hm, hn]
  · subst hm
    exact absurd h.symm (key n hn)
  · subst hn
    exact absurd h (key m hm)
  · have hd := congrArg String.data h
    rw [natDec, natDec] at hd
    simp only [hm, hn, if_false] at hd
    rw [natDecAux_eq_digits m m hm le_rfl, natDecAux_eq_digits n n hn le_rfl] at hd
    have hd2 := congrArg List.reverse hd
    rw [List.reverse_reverse, List.reverse_reverse] at hd2
    have := map_digitCh_inj (Nat.digits 10 m) (Nat.digits 10 n)
      (fun x hx => Nat.digits_lt_base (by norm_num) hx)
      (fun x hx => Nat.digits_lt_base (by norm_num) hx) hd2
    calc m = Nat.ofDigits 10 (Nat.digits 10 m) := (Nat.ofDigits_digits 10 m).symm
    _ = Nat.ofDigits 10 (Nat.digits 10 n) := by rw [this]
    _ = n := Nat.ofDigits_digits 10 n

theorem dash_not_mem_natDec (n : Nat) : '-' ∉ (natDec n).data := by
  by_cases hn : n = 0
  · rw [hn]
    decide
  · rw [natDec]
    simp only [hn, if_false]
    rw [natDecAux_eq_digits n n hn le_rfl]
    intro hmem
    rw [List.mem_reverse] at hmem
    obtain ⟨d, hd, hdc⟩ := List.mem_map.mp hmem
    exact digitCh_ne_dash d (Nat.digits_lt_base (by norm_num) hd) hdc

theorem intDec_inj (i j : Int) (h : intDec i = intDec j) : i = j := by
  have cross : ∀ (a b : Nat), natDec a ≠ "-" ++ natDec (b + 1) := by
    intro a b hcon
    have hd := congrArg String.data hcon
    rw [String.data_append] at hd
    have : '-' ∈ (natDec a).data := by
      rw [hd]
      simp [show ("-" : String).data = ['-'] from rfl]
    exact dash_not_mem_natDec a this
  cases i with
  | ofNat a =>
    cases j with
    | ofNat b =>
      rw [intDec, intDec] at h
      rw [natDec_inj a b h]
    | negSucc b =>
      rw [intDec, intDec] at h
      exact absurd h (cross a b)
  | negSucc a =>
    cases j with
    | ofNat b =>
      rw [intDec, intDec] at h
      exact absurd h.symm (cross b a)
    | negSucc b =>
      rw [intDec, intDec] at h
      have h2 : natDec (a + 1) = natDec (b + 1) := by
        have hd := congrArg String.data h
        rw [String.data_append, String.data_append] at hd
        exact String.ext (List.append_cancel_left hd)
      have hab : a = b := by
        have := natDec_inj (a + 1) (b + 1) h2
        omega
      rw [hab]

end Cache

namespace Cache

/-! ### Cancellation in the key serialization -/

theorem str_cancel_left (a b c : String) (h : a ++ b = a ++ c) : b = c := by
  have h2 := congrArg String.data h
  simp [String.data_append] at h2
  exact String.ext h2

theorem str_cancel_right (a b c : String) (h : a ++ c = b ++ c) : a = b := by
  have h2 := congrArg String.data h
  simp [String.data_append] at h2
  exact String.ext h2

theorem keyInput_text_inj (t1 t2 m v l : String) (s b : Option ℚ) (o : Option Int)
    (h : keyInput t1 m v l s b o = keyInput t2 m v l s b o) : t1 = t2 := by
  have hd := congrArg String.data h
  simp only [keyInput, String.data_append, List.append_assoc,
    List.append_cancel_left_eq, List.append_cancel_right_eq] at hd
  exact String.ext hd

theorem keyInput_model_inj (t m1 m2 v l : String) (s b : Option ℚ) (o : Option Int)
    (h : keyInput t m1 v l s b o = keyInput t m2 v l s b o) : m1 = m2 := by
  have hd := congrArg String.data h
  simp only [keyInput, String.data_append, List.append_assoc,
    List.append_cancel_left_eq, List.append_cancel_right_eq] at hd
  exact String.ext hd

theorem keyInput_voice_inj (t m v1 v2 l : String) (s b : Option ℚ) (o : Option Int)
    (h : keyInput t m v1 l s b o = keyInput t m v2 l s b o) : v1 = v2 := by
  have hd := congrArg String.data h
  simp only [keyInput, String.data_append, List.append_assoc,
    List.append_cancel_left_eq, List.append_cancel_right_eq] at hd
  exact String.ext hd

theorem keyInput_lang_inj (t m v l1 l2 : String) (s b : Option ℚ) (o : Option Int)
    (h : keyInput t m v l1 s b o = keyInput t m v l2 s b o) : l1 = l2 := by
  have hd := congrArg String.data h
  simp only [keyInput, String.data_append, List.append_assoc,
    List.append_cancel_left_eq, List.append_cancel_right_eq] at hd
  exact String.ext hd

theorem keyInput_stab_eq (t m v l : String) (s1 s2 : Option ℚ) (b : Option ℚ)
    (o : Option Int) (h : keyInput t m v l s1 b o = keyInput t m v l s2 b o) :
    stabilityLine s1 = stabilityLine s2 := by
  have hd := congrArg String.data h
  simp only [keyInput, String.data_append, List.append_assoc,
    List.append_cancel_left_eq, List.append_cancel_right_eq] at hd
  exact String.ext hd

theorem keyInput_sim_eq (t m v l : String) (s : Option ℚ) (b1 b2 : Option ℚ)
    (o : Option Int) (h : keyInput t m v l s b1 o = keyInput t m v l s b2 o) :
    similarityLine b1 = similarityLine b2 := by
  have hd := congrArg String.data h
  simp only [keyInput, String.data_append, List.append_assoc,
    List.append_cancel_left_eq, List.append_cancel_right_eq] at hd
  exact String.ext hd

theorem keyInput_lat_eq (t m v l : String) (s b : Option ℚ) (o1 o2 : Option Int)
    (h : keyInput t m v l s b o1 = keyInput t m v l s b o2) :
    latencyLine o1 = latencyLine o2 := by
  have hd := congrArg String.data h
  simp only [keyInput, String.data_append, List.append_assoc,
    List.append_cancel_left_eq, List.append_cancel_right_eq] at hd
  exact String.ext hd

theorem empty_ne_line (pre mid post : String) (hpre : pre.length ≠ 0) :
    ("" : String) ≠ pre ++ mid ++ post := by
  intro h
  have hl := congrArg String.length h
  simp [String.length_append] at hl
  omega

theorem latencyLine_inj (o1 o2 : Option Int)
    (h : latencyLine o1 = latencyLine o2) : o1 = o2 := by
  cases o1 with
  | none =>
    cases o2 with
    | none => rfl
    | some v =>
      rw [latencyLine, latencyLine] at h
      exact absurd h (empty_ne_line "optimize_streaming_latency=" (intDec v) "\n"
        (by decide))
  | some v1 =>
    cases o2 with
    | none =>
      rw [latencyLine, latencyLine] at h
      exact absurd h.symm (empty_ne_line "optimize_streaming_latency=" (intDec v1) "\n"
        (by decide))
    | some v2 =>
      rw [latencyLine, latencyLine] at h
      rw [String.append_assoc, String.append_assoc] at h
      have h2 := str_cancel_left "optimize_streaming_latency=" _ _ h
      have h3 := str_cancel_right _ _ "\n" h2
      rw [intDec_inj v1 v2 h3]

theorem stabilityLine_some_format (a1 a2 : ℚ)
    (h : stabilityLine (some a1) = stabilityLine (some a2)) :
    formatF6 a1 = formatF6 a2 := by
  rw [stabilityLine, stabilityLine] at h
  rw [String.append_assoc, String.append_assoc] at h
  exact str_cancel_right _ _ "\n" (str_cancel_left "stability=" _ _ h)

theorem stabilityLine_none_ne_some (a : ℚ) :
    stabilityLine none ≠ stabilityLine (some a) := by
  rw [stabilityLine, stabilityLine]
  exact empty_ne_line "stability=" (formatF6 a) "\n" (by decide)

theorem similarityLine_some_format (a1 a2 : ℚ)
    (h : similarityLine (some a1) = similarityLine (some a2)) :
    formatF6 a1 = formatF6 a2 := by
  rw [similarityLine, similarityLine] at h
  rw [String.append_assoc, String.append_assoc] at h
  exact str_cancel_right _ _ "\n" (str_cancel_left "similarity_boost=" _ _ h)

theorem similarityLine_none_ne_some (a : ℚ) :
    similarityLine none ≠ similarityLine (some a) := by
  rw [similarityLine, similarityLine]
  exact empty_ne_line "similarity_boost=" (formatF6 a) "\n" (by decide)

end Cache

/-- The exact rational value 0.1, a stability setting of the counterexample. -/
def stabA : ℚ := ⟨1, 10, by decide, by decide⟩

/-- The exact rational value 0.100000001: a stability setting differing from
`stabA` only beyond the sixth decimal place, so that the `%f` rendering of
both values is `"0.100000"`. -/
def stabB : ℚ := ⟨100000001, 1000000000, by decide, by decide⟩

/-- Counterexample to claim C4 as stated: two parameter tuples that differ
only in the stability field receive the same serialization — the `%f`
rendering collapses values that agree to six decimal places — and hence the
same key. -/
theorem C4_counterexample :
    Cache.Key "t" "m" "v" "l" (some stabA) none none
        = Cache.Key "t" "m" "v" "l" (some stabB) none none ∧
      stabA ≠ stabB := by
  have h : Cache.keyInput "t" "m" "v" "l" (some stabA) none none
      = Cache.keyInput "t" "m" "v" "l" (some stabB) none none := by decide
  exact ⟨congrArg Cache.sha256hex h, by decide⟩

/-- Claim C4, amended: key derivation is deterministic, and the serialized
digest input is injective over any single differing field for `text`,
`model`, `voiceId`, `languageCode` and `optimizeLatency` (including the
distinction between an absent optional parameter and an explicitly-provided
value, such as `optimizeLatency = 0` versus unset); for the float-valued
`stability` and `similarityBoost` fields, absent-versus-present is likewise
distinguished, but two provided values are distinguished only when their
six-decimal `%f` renderings differ — values closer than that collide. -/
theorem C4_amended :
    (∀ (t m v l t' m' v' l' : String) (s b s' b' : Option ℚ) (o o' : Option Int),
      t = t' → m = m' → v = v' → l = l' → s = s' → b = b' → o = o' →
      Cache.Key t m v l s b o = Cache.Key t' m' v' l' s' b' o') ∧
    (∀ (t1 t2 m v l : String) (s b : Option ℚ) (o : Option Int), t1 ≠ t2 →
      Cache.keyInput t1 m v l s b o ≠ Cache.keyInput t2 m v l s b o) ∧
    (∀ (t m1 m2 v l : String) (s b : Option ℚ) (o : Option Int), m1 ≠ m2 →
      Cache.keyInput t m1 v l s b o ≠ Cache.keyInput t m2 v l s b o) ∧
    (∀ (t m v1 v2 l : String) (s b : Option ℚ) (o : Option Int), v1 ≠ v2 →
      Cache.keyInput t m v1 l s b o ≠ Cache.keyInput t m v2 l s b o) ∧
    (∀ (t m v l1 l2 : String) (s b : Option ℚ) (o : Option Int), l1 ≠ l2 →
      Cache.keyInput t m v l1 s b o ≠ Cache.keyInput t m v l2 s b o) ∧
    (∀ (t m v l : String) (s b : Option ℚ) (o1 o2 : Option Int), o1 ≠ o2 →
      Cache.keyInput t m v l s b o1 ≠ Cache.keyInput t m v l s b o2) ∧
    ((∀ (t m v l : String) (a : ℚ) (b : Option ℚ) (o : Option Int),
      Cache.keyInput t m v l none b o ≠ Cache.keyInput t m v l (some a) b o) ∧
     (∀ (t m v l : String) (a1 a2 : ℚ) (b : Option ℚ) (o : Option Int),
      Cache.formatF6 a1 ≠ Cache.formatF6 a2 →
      Cache.keyInput t m v l (some a1) b o ≠ Cache.keyInput t m v l (some a2) b o)) ∧
    ((∀ (t m v l : String) (s : Option ℚ) (a : ℚ) (o : Option Int),
      Cache.keyInput t m v l s none o ≠ Cache.keyInput t m v l s (some a) o) ∧
     (∀ (t m v l : String) (s : Option ℚ) (a1 a2 : ℚ) (o : Option Int),
      Cache.formatF6 a1 ≠ Cache.formatF6 a2 →
      Cache.keyInput t m v l s (some a1) o ≠ Cache.keyInput t m v l s (some a2) o)) := by
  refine ⟨?_, ?_, ?_, ?_, ?_, ?_, ⟨?_, ?_⟩, ⟨?_, ?_⟩⟩
  · intro t m v l t' m' v' l' s b s' b' o o' h1 h2 h3 h4 h5 h6 h7
    subst h1; subst h2; subst h3; subst h4; subst h5; subst h6; subst h7
    rfl
  · intro t1 t2 m v l s b o hne h
    exact hne (Cache.keyInput_text_inj t1 t2 m v l s b o h)
  · intro t m1 m2 v l s b o hne h
    exact hne (Cache.keyInput_model_inj t m1 m2 v l s b o h)
  · intro t m v1 v2 l s b o hne h
    exact hne (Cache.keyInput_voice_inj t m v1 v2 l s b o h)
  · intro t m v l1 l2 s b o hne h
    exact hne (Cache.keyInput_lang_inj t m v l1 l2 s b o h)
  · intro t m v l s b o1 o2 hne h
    exact hne (Cache.latencyLine_inj o1 o2 (Cache.keyInput_lat_eq t m v l s b o1 o2 h))
  · intro t m v l a b o h
    exact Cache.stabilityLine_none_ne_some a
      (Cache.keyInput_stab_eq t m v l none (some a) b o h)
  · intro t m v l a1 a2 b o hf h
    exact hf (Cache.stabilityLine_some_format a1 a2
      (Cache.keyInput_stab_eq t m v l (some a1) (some a2) b o h))
  · intro t m v l s a o h
    exact Cache.similarityLine_none_ne_some a
      (Cache.keyInput_sim_eq t m v l s none (some a) o h)
  · intro t m v l s a1 a2 o hf h
    exact hf (Cache.similarityLine_some_format a1 a2
      (Cache.keyInput_sim_eq t m v l s (some a1) (some a2) o h))

/-- Witness for the amended C4: two texts, and unset versus zero latency,
each changing the serialization. -/
theorem C4_amended_witness :
    (("a" : String) ≠ "b" ∧
      Cache.keyInput "a" "m" "v" "l" none none none
        ≠ Cache.keyInput "b" "m" "v" "l" none none none) ∧
    ((none : Option Int) ≠ some 0 ∧
      Cache.keyInput "a" "m" "v" "l" none none none
        ≠ Cache.keyInput "a" "m" "v" "l" none none (some 0)) :=
  ⟨⟨by decide, C4_amended.2.1 "a" "b" "m" "v" "l" none none none (by decide)⟩,
   ⟨by decide, C4_amended.2.2.2.2.2.1 "a" "m" "v" "l" none none none (some 0)
      (by decide)⟩⟩

/-- Claim C10: the newline-delimited serialization does not escape field
contents, so two tuples whose `text` and `model` differ simultaneously can
share one serialization and hence one key. -/
theorem C10_key_collision :
    Cache.keyInput "A\nmodel=B" "M" "V" "L" none none none
        = Cache.keyInput "A" "B\nmodel=M" "V" "L" none none none ∧
      Cache.Key "A\nmodel=B" "M" "V" "L" none none none
        = Cache.Key "A" "B\nmodel=M" "V" "L" none none none ∧
      ("A\nmodel=B", "M") ≠ ("A", "B\nmodel=M") := by
  have h : Cache.keyInput "A\nmodel=B" "M" "V" "L" none none none
      = Cache.keyInput "A" "B\nmodel=M" "V" "L" none none none := by decide
  exact ⟨h, congrArg Cache.sha256hex h, by decide⟩
